import Mathlib

/-!
Shallow embedding of the shortest-path-on-bundles-of-line-segments repository
(`src/shortest_path.py`, `src/utils.py`, with `src/obj.py` an older broken
variant).  Coordinates are modelled by exact rationals; the two transcendental
operations of the Python code (`math.sqrt` inside `calculate_distance` /
`Point.magnitude`, and `math.acos`-based `calculate_angle`) are passed in as
oracle parameters, since every claim under study is either independent of
their values or is stated under explicit hypotheses pinning the oracle down on
the finitely many values the code consumes.  Fallible Python operations
(IndexError, ValueError, TypeError, ZeroDivisionError, the deliberate
`raise Exception("Cannot find link ...")`, and non-termination of the
`while True` sweep) are modelled with an `Except`/fuel discipline.
-/

/-- Mirrors `utils.Point`: an immutable 2-D rational coordinate with exact
(tolerance-free) equality, vector addition/subtraction and scalar
multiply/divide. -/
structure Point where
  x : ℚ
  y : ℚ
deriving DecidableEq, Repr

instance : Add Point := ⟨fun p q => ⟨p.x + q.x, p.y + q.y⟩⟩
instance : Sub Point := ⟨fun p q => ⟨p.x - q.x, p.y - q.y⟩⟩
instance : HMul Point ℚ Point := ⟨fun p c => ⟨p.x * c, p.y * c⟩⟩
instance : HDiv Point ℚ Point := ⟨fun p c => ⟨p.x / c, p.y / c⟩⟩

/-- `utils.EPSILON`. -/
def EPSILON : ℚ := 1 / 1000000

/-- The squared Euclidean distance; `utils.calculate_distance` is
`sqrt` of this quantity. -/
def dist_sq (p1 p2 : Point) : ℚ :=
  (p1.x - p2.x) ^ 2 + (p1.y - p2.y) ^ 2

/-- Mirrors `utils.calculate_distance`, with the square root supplied by the
oracle `sqrtO` (the Python code calls `math.sqrt`). -/
def calculate_distance (sqrtO : ℚ → ℚ) (p1 p2 : Point) : ℚ :=
  sqrtO (dist_sq p1 p2)

/-- Mirrors `utils.is_larger_angle`. -/
def is_larger_angle (angle1 angle2 : ℚ) : Bool :=
  decide (angle1 - angle2 > EPSILON)

/-- Mirrors `utils.is_equal_angle`. -/
def is_equal_angle (angle1 angle2 : ℚ) : Bool :=
  decide (|angle1 - angle2| ≤ EPSILON)

/-- Mirrors `utils.is_smaller_angle`. -/
def is_smaller_angle (angle1 angle2 : ℚ) : Bool :=
  decide (angle1 - angle2 < -EPSILON)

/-- The signed-area cross product shared by `utils.is_left` and
`utils.is_left_on`. -/
def cross (p0 p1 p : Point) : ℚ :=
  (p1.x - p0.x) * (p.y - p0.y) - (p.x - p0.x) * (p1.y - p0.y)

/-- Mirrors `utils.is_left` (strict, tolerance `EPSILON`; the sign is flipped
when `direction` is false). -/
def is_left (p0 p1 p : Point) (direction : Bool) : Bool :=
  decide (cross p0 p1 p * (if direction then 1 else -1) > EPSILON)

/-- Mirrors `utils.is_left_on` (non-strict, `≥ -EPSILON`). -/
def is_left_on (p0 p1 p : Point) (direction : Bool) : Bool :=
  decide (cross p0 p1 p * (if direction then 1 else -1) ≥ -EPSILON)

/-- Error outcomes of the Python code: `indexErr` (IndexError),
`valueErr` (ValueError, also raised by `list.index` misses, by `min()` of an
empty sequence and by the zero-length-ray check in `calculate_angle`),
`typeErr` (the `shortest_path += point` TypeError: extending a list by a
non-iterable `Point`), `zeroDivErr` (ZeroDivisionError), `noLink` (the
deliberate `raise Exception("Cannot find link [u*, v*]")`), and `fuelOut`
(marker for a non-terminating `while True` sweep, unreachable with enough
fuel on terminating inputs). -/
inductive Err where
  | indexErr
  | valueErr
  | typeErr
  | zeroDivErr
  | noLink
  | fuelOut
deriving DecidableEq, Repr

deriving instance DecidableEq for Except

/-- Mirrors Python's `list.index`: position of the first occurrence, `none`
when absent (Python raises ValueError). -/
def list_index (xs : List Point) (p : Point) : Option Nat :=
  match xs with
  | [] => none
  | q :: rest =>
    if q = p then some 0
    else match list_index rest p with
      | none => none
      | some i => some (i + 1)

/-- Mirrors `utils.calculate_angle`, with the `acos`-based degree value
supplied by the oracle `angV`.  The zero-length-ray precondition check is
exact: the magnitude of a rational vector vanishes iff the two points
coincide, in which case the Python code raises ValueError. -/
def calculate_angle (angV : Point → Point → Point → ℚ) (A B C : Point) :
    Except Err ℚ :=
  if A = B ∨ C = B then .error .valueErr else .ok (angV A B C)

/-- Mirrors `SequenceOfBundles` of `src/shortest_path.py`: the skeleton, the
maximal segment length, and one list of outer endpoints per skeleton
vertex. -/
structure SequenceOfBundles where
  skeleton : List Point
  radius : ℚ
  outer_endpoints : List (List Point)
deriving DecidableEq, Repr

/-- Mirrors `SequenceOfBundles.__init__`: every bundle starts empty. -/
def SequenceOfBundles.init (skeleton : List Point) (radius : ℚ) :
    SequenceOfBundles :=
  ⟨skeleton, radius, skeleton.map (fun _ => [])⟩

/-- The clamp applied by `add_line_segment` when the segment exceeds
`radius`: `vertex + (diff / diff.magnitude) * radius` (the magnitude is the
oracle square root of the squared distance). -/
def clamp_endpoint (sqrtO : ℚ → ℚ) (radius : ℚ) (vertex outer_endpoint : Point) :
    Point :=
  vertex + ((outer_endpoint - vertex) / sqrtO (dist_sq vertex outer_endpoint)) * radius

/-- The angular-order insertion scan of `add_line_segment` (lines 69-77 of
`src/shortest_path.py`): walk the bundle, insert before the first entry with
a strictly larger angle, stop unchanged at an (ε-)equal angle, append at the
end.  Angle computations can raise (zero-length ray). -/
def insert_endpoint (angV : Point → Point → Point → ℚ)
    (prev_vertex vertex outer_endpoint : Point) :
    List Point → Except Err (List Point)
  | [] => .ok [outer_endpoint]
  | p :: rest =>
    match calculate_angle angV prev_vertex vertex p with
    | .error e => .error e
    | .ok angle1 =>
      match calculate_angle angV prev_vertex vertex outer_endpoint with
      | .error e => .error e
      | .ok angle2 =>
        if is_larger_angle angle1 angle2 then
          .ok (outer_endpoint :: p :: rest)
        else if is_equal_angle angle1 angle2 then
          .ok (p :: rest)
        else
          match insert_endpoint angV prev_vertex vertex outer_endpoint rest with
          | .error e => .error e
          | .ok rest2 => .ok (p :: rest2)

/-- Mirrors `SequenceOfBundles.add_line_segment` of `src/shortest_path.py`:
validation guards return the model unchanged (`.ok s`); an over-length
segment is clamped in place; the sector check and the ordered insert follow.
Exceptions escaping the call (zero-length rays in `calculate_angle`,
division by zero in the clamp) are `.error`. -/
def SequenceOfBundles.add_line_segment (angV : Point → Point → Point → ℚ)
    (sqrtO : ℚ → ℚ) (s : SequenceOfBundles) (vertex outer_endpoint : Point) :
    Except Err SequenceOfBundles :=
  if vertex ∉ s.skeleton then .ok s
  else
    match s.skeleton.head?, s.skeleton.getLast? with
    | some first, some last =>
      if vertex = first ∨ vertex = last then .ok s
      else
        let d := calculate_distance sqrtO vertex outer_endpoint
        match
          (if d > s.radius then
            (if d = 0 then .error .zeroDivErr
             else .ok (clamp_endpoint sqrtO s.radius vertex outer_endpoint))
           else .ok outer_endpoint : Except Err Point) with
        | .error e => .error e
        | .ok ep =>
          match list_index s.skeleton vertex with
          | none => .error .valueErr
          | some index =>
            match s.skeleton[index - 1]?, s.skeleton[index + 1]? with
            | some prev_vertex, some next_vertex =>
              match calculate_angle angV prev_vertex vertex next_vertex,
                    calculate_angle angV prev_vertex vertex ep,
                    calculate_angle angV ep vertex next_vertex with
              | .ok a1, .ok a2, .ok a3 =>
                if ¬ is_equal_angle a1 (a2 + a3) then .ok s
                else
                  match s.outer_endpoints[index]? with
                  | none => .error .indexErr
                  | some bundle =>
                    match insert_endpoint angV prev_vertex vertex ep bundle with
                    | .error e => .error e
                    | .ok bundle2 =>
                      .ok ⟨s.skeleton, s.radius,
                           s.outer_endpoints.set index bundle2⟩
              | .error e, _, _ => .error e
              | _, .error e, _ => .error e
              | _, _, .error e => .error e
            | _, _ => .error .indexErr
    | _, _ => .ok s

/-- `itertools.combinations(skeleton, 2)` as used by `preprocess`. -/
def pair_combinations : List Point → List (Point × Point)
  | [] => []
  | a :: rest => rest.map (fun b => (a, b)) ++ pair_combinations rest

/-- The `min_radius` computed by `SequenceOfBundles.preprocess`: half the
minimum pairwise skeleton distance (`none` when the skeleton has fewer than
two vertices, where Python's `min()` raises ValueError). -/
def min_radius (sqrtO : ℚ → ℚ) (s : SequenceOfBundles) : Option ℚ :=
  match (pair_combinations s.skeleton).map
      (fun ab => calculate_distance sqrtO ab.1 ab.2) with
  | [] => none
  | d :: ds => some ((1 / 2) * ds.foldl min d)

/-- Mirrors `SequenceOfBundles.preprocess`: clamp every outer endpoint whose
distance from its vertex exceeds `min_radius`. -/
def SequenceOfBundles.preprocess (sqrtO : ℚ → ℚ) (s : SequenceOfBundles) :
    Except Err SequenceOfBundles :=
  match min_radius sqrtO s with
  | none => .error .valueErr
  | some mr =>
    .ok ⟨s.skeleton, s.radius,
      (s.skeleton.zip s.outer_endpoints).map (fun vb =>
        vb.2.map (fun ep =>
          if calculate_distance sqrtO vb.1 ep > mr then
            clamp_endpoint sqrtO mr vb.1 ep
          else ep))⟩

/-- Mirrors `SimplePolygon` of `src/shortest_path.py`: two boundary chains. -/
structure SimplePolygon where
  polyline_P : List Point
  polyline_Q : List Point
deriving DecidableEq, Repr

/-- Mirrors `SimplePolygon.__init__`: raises ValueError when the two chains do
not share both their first and their last point (IndexError on an empty
chain), otherwise stores the chains unchanged — no other condition is
checked. -/
def SimplePolygon.mk? (polyline_P polyline_Q : List Point) :
    Except Err SimplePolygon :=
  match polyline_P.head?, polyline_Q.head?,
        polyline_P.getLast?, polyline_Q.getLast? with
  | some p0, some q0, some pl, some ql =>
    if p0 ≠ q0 ∨ pl ≠ ql then .error .valueErr
    else .ok ⟨polyline_P, polyline_Q⟩
  | _, _, _, _ => .error .indexErr

/-- Exact turn sign of a vertex triple, as in `utils.orientation` (no
tolerance): `1` for a positive cross product, `-1` for a negative one, `0`
for collinear. -/
def turn_sign (p q r : Point) : Int :=
  let v := (q.x - p.x) * (r.y - p.y) - (q.y - p.y) * (r.x - p.x)
  if v = 0 then 0 else if v > 0 then 1 else -1

/-- Helper walk for `decompose_polyline_to_convex_rope`: carries the current
rope id and the current turn direction, emits one label per remaining
vertex. -/
def decompose_go (id dirS : Int) (p q : Point) : List Point → List Int
  | [] => [0]
  | r :: rest =>
    let t := turn_sign p q r
    if t = 0 then 0 :: decompose_go id dirS q r rest
    else if t = dirS then id :: decompose_go id dirS q r rest
    else (id + 1) :: decompose_go (id + 1) t q r rest

/-- Modelled from the spec: `decompose_polyline_to_convex_rope` is imported
by `src/shortest_path.py` from `utils`, but the function is missing from
`src/utils.py`.  Following the spec (sections 3 and 4.3), each interior
vertex is classified by the turn sign of its triple; maximal runs of equal
turn direction share one rope id (ids start at 1), collinear vertices are
tagged 0, and the two terminal vertices (which have no triple) are tagged 0
as well.  The result has one label per input vertex. -/
def decompose_polyline_to_convex_rope : List Point → List Int
  | [] => []
  | [_] => [0]
  | a :: b :: rest => 0 :: decompose_go 0 0 a b rest

/-- Mirrors `SimplePolygonFromSequenceOfBundle`: the two chains plus the
convex-rope labels carried alongside each chain point and the per-skeleton
labels. -/
structure SimplePolygonFromSequenceOfBundle where
  polyline_P : List Point
  polyline_Q : List Point
  cv_rope_label_on_P : List Int
  cv_rope_label_on_Q : List Int
  skeleton_labels : List Int
deriving DecidableEq, Repr

/-- The interior-vertex loop of `SimplePolygonFromSequenceOfBundle.__init__`
(lines 300-312 of `src/shortest_path.py`): for each interior index, the side
of the first bundle endpoint decides which chain receives the bare vertex and
which receives the whole bundle; an empty bundle raises IndexError at
`outer_endpoints[i][0]` (the code comment warns degenerate bundles are not
accepted). -/
def build_chains (skel : List Point) (buckets : List (List Point))
    (labels : List Int) :
    List Point → List Point → List Int → List Int → List Nat →
    Except Err (List Point × List Point × List Int × List Int)
  | P, Q, lp, lq, [] => .ok (P, Q, lp, lq)
  | P, Q, lp, lq, i :: is =>
    match skel[i - 1]?, skel[i]?, buckets[i]?, labels[i]? with
    | some prev, some v, some bundle, some lab =>
      match bundle[0]? with
      | none => .error .indexErr
      | some b0 =>
        if is_left prev v b0 true then
          build_chains skel buckets labels (P ++ bundle) (Q ++ [v])
            (lp ++ bundle.map (fun _ => lab)) (lq ++ [lab]) is
        else
          build_chains skel buckets labels (P ++ [v]) (Q ++ bundle)
            (lp ++ [lab]) (lq ++ bundle.map (fun _ => lab)) is
    | _, _, _, _ => .error .indexErr

/-- Mirrors `SimplePolygonFromSequenceOfBundle.__init__`: both chains start
at the first skeleton vertex (label 0), the interior loop distributes bundles
and vertices, both chains end at the last skeleton vertex, and the
`SimplePolygon` endpoint check of the superclass constructor runs at the
end. -/
def SimplePolygonFromSequenceOfBundle.mk? (sequence : SequenceOfBundles) :
    Except Err SimplePolygonFromSequenceOfBundle :=
  match sequence.skeleton[0]? with
  | none => .error .indexErr
  | some v0 =>
    let labels := decompose_polyline_to_convex_rope sequence.skeleton
    match build_chains sequence.skeleton sequence.outer_endpoints labels
        [v0] [v0] [0] [0]
        (List.range' 1 (sequence.skeleton.length - 2)) with
    | .error e => .error e
    | .ok (P, Q, lp, lq) =>
      match sequence.skeleton.getLast?, labels.getLast? with
      | some vl, some labl =>
        match SimplePolygon.mk? (P ++ [vl]) (Q ++ [vl]) with
        | .error e => .error e
        | .ok _ =>
          .ok ⟨P ++ [vl], Q ++ [vl], lp ++ [labl], lq ++ [labl], labels⟩
      | _, _ => .error .indexErr

/-- Mirrors `SimplePolygon.is_inside_new_hull`: the checked point is strictly
inside the triangle newly added to the hull. -/
def is_inside_new_hull (left_tp right_tp added_pt checking_pt : Point)
    (direction : Bool) : Bool :=
  is_left left_tp added_pt checking_pt direction &&
  is_left added_pt right_tp checking_pt direction &&
  is_left right_tp left_tp checking_pt direction

/-- Mirrors `SimplePolygon.verify_link`: every `X*` point weakly left of the
candidate edge under the current direction, every `Y*` point weakly left
under the flipped direction. -/
def verify_link (Xstar Ystar : List Point) (Ustar Vstar : Point)
    (direction : Bool) : Bool :=
  Xstar.all (fun pt => is_left_on Ustar Vstar pt direction) &&
  Ystar.all (fun pt => is_left_on Ustar Vstar pt (!direction))

/-- The inner `for Vstar in Ystar` loop of `SimplePolygon.find_link`. -/
def find_link_inner (Xstar Ystar : List Point) (direction : Bool)
    (Ustar : Point) : List Point → Option Point
  | [] => none
  | V :: Vs =>
    if verify_link Xstar Ystar Ustar V direction then some V
    else find_link_inner Xstar Ystar direction Ustar Vs

/-- The outer `for Ustar in Xstar` loop of `SimplePolygon.find_link`. -/
def find_link_outer (Xstar Ystar : List Point) (direction : Bool) :
    List Point → Option (Point × Point)
  | [] => none
  | U :: Us =>
    match find_link_inner Xstar Ystar direction U Ystar with
    | some V => some (U, V)
    | none => find_link_outer Xstar Ystar direction Us

/-- Mirrors `SimplePolygon.find_link`: first `(U*, V*)` pair (in `X*` then
`Y*` order) that `verify_link` accepts; `none` models the Python
`(None, None)`. -/
def find_link (Xstar Ystar : List Point) (direction : Bool) :
    Option (Point × Point) :=
  find_link_outer Xstar Ystar direction Xstar

/-- Mirrors `SimplePolygon.get_tangent_line` (Python slices
`t[s:] + t[1:e+1]` and `t[s:e+1]`). -/
def get_tangent_line (tangent_polyline : List Point)
    (start_tp_idx end_tp_idx : Nat) : List Point :=
  if end_tp_idx < start_tp_idx then
    tangent_polyline.drop start_tp_idx ++
      (tangent_polyline.take (end_tp_idx + 1)).drop 1
  else
    (tangent_polyline.take (end_tp_idx + 1)).drop start_tp_idx

/-- Fallback point for in-range list reads inside the tangent-index walks
(the walks only ever read positions that exist; see
`find_tangent_points`). -/
def pt0 : Point := ⟨0, 0⟩

/-- The backward walk of `SimplePolygon.find_tangent_points`: decrement from
the end while the index is positive and the turn
`(t[l-1], t[l], added)` is not a left turn. -/
def ftp_left (t : List Point) (added_pt : Point) (direction : Bool) :
    Nat → Nat
  | 0 => 0
  | l + 1 =>
    if is_left (t.getD l pt0) (t.getD (l + 1) pt0) added_pt direction then l + 1
    else ftp_left t added_pt direction l

/-- The forward walk of `SimplePolygon.find_tangent_points`: increment from 0
while the index is below `len - 1` and `(added, t[r], t[r+1])` is not a left
turn (the second argument counts the remaining steps). -/
def ftp_right (t : List Point) (added_pt : Point) (direction : Bool) :
    Nat → Nat → Nat
  | r, 0 => r
  | r, k + 1 =>
    if is_left added_pt (t.getD r pt0) (t.getD (r + 1) pt0) direction then r
    else ftp_right t added_pt direction (r + 1) k

/-- Mirrors `SimplePolygon.find_tangent_points`. -/
def find_tangent_points (tangent_polyline : List Point) (added_pt : Point)
    (direction : Bool) : Nat × Nat :=
  (ftp_left tangent_polyline added_pt direction (tangent_polyline.length - 1),
   ftp_right tangent_polyline added_pt direction 0
     (tangent_polyline.length - 1))

/-- The `Y*` set: dual-chain points inside the newly extended hull (the
`for pt in dual_polyline` filter of `find_shortest_path`). -/
def compute_Ystar (dual_polyline : List Point) (left_tp right_tp added_pt : Point)
    (direction : Bool) : List Point :=
  dual_polyline.filter
    (fun pt => is_inside_new_hull left_tp right_tp added_pt pt direction)

/-- The `X*` set (line 260-263 of `src/shortest_path.py`): the whole tangent
polyline when it has exactly two points, otherwise
`t[l:-1] + t[0:r+1]`. -/
def compute_Xstar (tangent_polyline : List Point) (l r : Nat) : List Point :=
  if tangent_polyline.length = 2 then tangent_polyline
  else ((tangent_polyline.take (tangent_polyline.length - 1)).drop l) ++
    tangent_polyline.take (r + 1)

/-- The splice that absorbs an accepted point into the hull
(`tangent = tangent[right:left+1]`, then append and prepend `added_pt`). -/
def splice_tangent (tangent_polyline : List Point) (l r : Nat)
    (added_pt : Point) : List Point :=
  added_pt :: ((tangent_polyline.take (l + 1)).drop r ++ [added_pt])

/-- Outcome of one pass of the incremental hull loop (`for i in
range(start_index+2, len(curr_polyline))`): the goal was emitted, a chain
switch happened (carrying the new sweep state), or the chain was exhausted
without either (after which the Python `while True` restarts the identical
pass, i.e. diverges). -/
inductive InnerNext where
  | goal (path : List Point)
  | switched (path : List Point) (si : Nat) (curr : List Point) (dir : Bool)
  | exhausted
deriving DecidableEq, Repr

/-- The incremental-hull loop of `SimplePolygon.find_shortest_path`
(lines 233-275 of `src/shortest_path.py`), iterating over the remaining
points of the current chain.  `goalv` is `polyline_P[-1]` and `c0` is
`curr_polyline[start_index]`, both fixed during the loop. -/
def inner_loop (dual : List Point) (goalv c0 : Point) (dir : Bool)
    (tangent path : List Point) : List Point → Except Err InnerNext
  | [] => .ok .exhausted
  | added :: rest =>
    let lr := find_tangent_points tangent added dir
    match tangent[lr.1]?, tangent[lr.2]? with
    | some left_tp, some right_tp =>
      let Ystar := compute_Ystar dual left_tp right_tp added dir
      if Ystar = [] then
        let t2 := splice_tangent tangent lr.1 lr.2 added
        if added = goalv then
          match list_index t2 c0 with
          | none => .error .valueErr
          | some start_tp_idx => .ok (.goal (path ++ t2.drop start_tp_idx))
        else inner_loop dual goalv c0 dir t2 path rest
      else
        match find_link (compute_Xstar tangent lr.1 lr.2) Ystar dir with
        | none => .error .noLink
        | some UV =>
          match list_index tangent c0, list_index tangent UV.1,
                list_index dual UV.2 with
          | some start_tp_idx, some Ustar_idx, some Vstar_idx =>
            .ok (.switched
              (path ++ get_tangent_line tangent start_tp_idx Ustar_idx)
              Vstar_idx dual (!dir))
          | _, _, _ => .error .valueErr
    | _, _ => .error .indexErr

/-- The `while True` sweep of `SimplePolygon.find_shortest_path`, with fuel
standing in for non-termination.  The polygon is threaded through so that
the final state is observable: the engine only reads the chains.  Branch
one (`curr[start] == P[-1]`) is the Python `shortest_path +=
curr_polyline[start_index]`, a TypeError (a `Point` is not iterable). -/
def while_loop (poly : SimplePolygon) :
    Nat → List Point → Nat → List Point → Bool →
    SimplePolygon × Except Err (List Point)
  | 0, _, _, _, _ => (poly, .error .fuelOut)
  | n + 1, path, si, curr, dir =>
    let dual := if curr = poly.polyline_P then poly.polyline_Q
                else poly.polyline_P
    match poly.polyline_P.getLast? with
    | none => (poly, .error .indexErr)
    | some goalv =>
      match curr[si]? with
      | none => (poly, .error .indexErr)
      | some c0 =>
        if c0 = goalv then (poly, .error .typeErr)
        else
          match curr[si + 1]? with
          | none => (poly, .error .indexErr)
          | some c1 =>
            if c1 = goalv then (poly, .ok (path ++ [c0, c1]))
            else
              match curr[si + 2]? with
              | none => (poly, .error .indexErr)
              | some c2 =>
                let tangent0 := if is_left c0 c1 c2 dir then [c0, c1]
                                else [c1, c0]
                match inner_loop dual goalv c0 dir tangent0 path
                    (curr.drop (si + 2)) with
                | .error e => (poly, .error e)
                | .ok (.goal p) => (poly, .ok p)
                | .ok (.switched p2 si2 curr2 dir2) =>
                  while_loop poly n p2 si2 curr2 dir2
                | .ok .exhausted => while_loop poly n path si curr dir

/-- Mirrors `SimplePolygon.find_shortest_path` (the naive engine): start from
chain P or Q according to `direction`, with an empty output path and start
index 0. -/
def SimplePolygon.find_shortest_path (poly : SimplePolygon)
    (direction : Bool) (fuel : Nat) :
    SimplePolygon × Except Err (List Point) :=
  while_loop poly fuel [] 0
    (if direction then poly.polyline_P else poly.polyline_Q) direction

/-- Outcome of one pass of the pruned engine's hull loop; a chain switch
carries the identity (`curr_id`: true = chain P) of the new current chain,
since the pruned engine selects its label list with Python `is`
(object identity) while the dual chain is selected with `==`. -/
inductive InnerNextB where
  | goal (path : List Point)
  | switched (path : List Point) (si : Nat) (curr_id : Bool) (dir : Bool)
  | exhausted
deriving DecidableEq, Repr

/-- The incremental-hull loop of
`SimplePolygonFromSequenceOfBundle.find_shortest_path` (lines 360-408 of
`src/shortest_path.py`), iterating over the remaining indices of the current
chain.  The intersection test runs only when the added point's convex-rope
label differs from the current one (or is 0 with a differing predecessor
label); otherwise the point is absorbed directly.  `dual_id` is the identity
of the dual chain, installed as the new `curr_id` on a switch. -/
def inner_loop_b (dual curr : List Point) (labels : List Int)
    (curr_label : Int) (goalv c0 : Point) (dir : Bool) (dual_id : Bool)
    (tangent path : List Point) : List Nat → Except Err InnerNextB
  | [] => .ok .exhausted
  | i :: is =>
    match curr[i]? with
    | none => .error .indexErr
    | some added =>
      let lr := find_tangent_points tangent added dir
      match tangent[lr.1]?, tangent[lr.2]? with
      | some left_tp, some right_tp =>
        match labels[i]? with
        | none => .error .indexErr
        | some li =>
          let check : Except Err Bool :=
            if li ≠ curr_label then .ok true
            else if li = 0 then
              match labels[i - 1]? with
              | none => .error .indexErr
              | some lim1 => .ok (lim1 ≠ curr_label)
            else .ok false
          match check with
          | .error e => .error e
          | .ok doCheck =>
            let Ystar := compute_Ystar dual left_tp right_tp added dir
            if doCheck ∧ Ystar ≠ [] then
              match find_link (compute_Xstar tangent lr.1 lr.2) Ystar dir with
              | none => .error .noLink
              | some UV =>
                match list_index tangent c0, list_index tangent UV.1,
                      list_index dual UV.2 with
                | some start_tp_idx, some Ustar_idx, some Vstar_idx =>
                  .ok (.switched
                    (path ++ get_tangent_line tangent start_tp_idx Ustar_idx)
                    Vstar_idx dual_id (!dir))
                | _, _, _ => .error .valueErr
            else
              let t2 := splice_tangent tangent lr.1 lr.2 added
              if added = goalv then
                match list_index t2 c0 with
                | none => .error .valueErr
                | some start_tp_idx => .ok (.goal (path ++ t2.drop start_tp_idx))
              else inner_loop_b dual curr labels curr_label goalv c0 dir
                dual_id t2 path is
      | _, _ => .error .indexErr

/-- The `while True` sweep of
`SimplePolygonFromSequenceOfBundle.find_shortest_path`.  `curr_id` is true
when the current chain is (the object) `polyline_P`; the label list follows
that identity, the dual chain follows value equality with `polyline_P`, as
in the Python (`is` versus `==`).  The current rope label is read at
`start_index`, falling back to `start_index + 1` when it is 0. -/
def while_loop_b (bp : SimplePolygonFromSequenceOfBundle) :
    Nat → List Point → Nat → Bool → Bool →
    SimplePolygonFromSequenceOfBundle × Except Err (List Point)
  | 0, _, _, _, _ => (bp, .error .fuelOut)
  | n + 1, path, si, curr_id, dir =>
    let curr := if curr_id then bp.polyline_P else bp.polyline_Q
    let labels := if curr_id then bp.cv_rope_label_on_P
                  else bp.cv_rope_label_on_Q
    let dual_id := decide ¬ (curr = bp.polyline_P)
    let dual := if curr = bp.polyline_P then bp.polyline_Q else bp.polyline_P
    match bp.polyline_P.getLast? with
    | none => (bp, .error .indexErr)
    | some goalv =>
      match curr[si]? with
      | none => (bp, .error .indexErr)
      | some c0 =>
        if c0 = goalv then (bp, .error .typeErr)
        else
          match curr[si + 1]? with
          | none => (bp, .error .indexErr)
          | some c1 =>
            if c1 = goalv then (bp, .ok (path ++ [c0, c1]))
            else
              match curr[si + 2]? with
              | none => (bp, .error .indexErr)
              | some c2 =>
                let tangent0 := if is_left c0 c1 c2 dir then [c0, c1]
                                else [c1, c0]
                match labels[si]? with
                | none => (bp, .error .indexErr)
                | some l0 =>
                  match (if l0 = 0 then labels[si + 1]? else some l0) with
                  | none => (bp, .error .indexErr)
                  | some curr_label =>
                    match inner_loop_b dual curr labels curr_label goalv c0
                        dir dual_id tangent0 path
                        (List.range' (si + 2) (curr.length - (si + 2))) with
                    | .error e => (bp, .error e)
                    | .ok (.goal p) => (bp, .ok p)
                    | .ok (.switched p2 si2 cid2 dir2) =>
                      while_loop_b bp n p2 si2 cid2 dir2
                    | .ok .exhausted => while_loop_b bp n path si curr_id dir

/-- Mirrors `SimplePolygonFromSequenceOfBundle.find_shortest_path` (the
convex-rope-pruned engine). -/
def SimplePolygonFromSequenceOfBundle.find_shortest_path
    (bp : SimplePolygonFromSequenceOfBundle) (direction : Bool) (fuel : Nat) :
    SimplePolygonFromSequenceOfBundle × Except Err (List Point) :=
  while_loop_b bp fuel [] 0 direction direction



/-! ## Definitions used to state the remaining claims -/

/-- The angular ascending-order relation used to state the bundle invariant:
the second endpoint's angle from the previous-edge reference exceeds the
first one's by more than `EPSILON`. -/
def angle_asc (angV : Point → Point → Point → ℚ) (prev_vertex vertex : Point)
    (p q : Point) : Prop :=
  is_larger_angle (angV prev_vertex vertex q) (angV prev_vertex vertex p) = true

/-- Folding a list of `add_line_segment` calls over a bundle model; a call
that raises keeps the model unchanged (the Python object is not mutated
before the raise). -/
def run_calls (angV : Point → Point → Point → ℚ) (sqrtO : ℚ → ℚ)
    (s0 : SequenceOfBundles) (calls : List (Point × Point)) :
    SequenceOfBundles :=
  calls.foldl (fun s c =>
    match SequenceOfBundles.add_line_segment angV sqrtO s c.1 c.2 with
    | .ok s2 => s2
    | .error _ => s) s0

/-- The bundle-ordering invariant: within each vertex's stored bundle the
endpoints are in strictly ascending angular order, measured from the
previous skeleton vertex. -/
def bundles_sorted (angV : Point → Point → Point → ℚ)
    (s : SequenceOfBundles) : Prop :=
  ∀ (i : Nat) (v prev : Point) (b : List Point),
    s.skeleton[i]? = some v → s.skeleton[i - 1]? = some prev →
    s.outer_endpoints[i]? = some b →
    List.Chain' (angle_asc angV prev v) b

/-- The endpoint actually stored by `add_line_segment`: the input endpoint,
clamped onto the radius when it is too long. -/
def effective_endpoint (sqrtO : ℚ → ℚ) (radius : ℚ) (v e : Point) : Point :=
  if calculate_distance sqrtO v e > radius then
    clamp_endpoint sqrtO radius v e
  else e

/-- Sign of a rational, as the source `orientation` helper computes it
(0 for zero, 1 for positive, -1 for negative). -/
def ratSign (q : ℚ) : Int := if q = 0 then 0 else if 0 < q then 1 else -1

/-- utils.orientation: orientation of the triplet (p, q, r) by the exact
sign of the cross product (0 collinear, 1 positive, -1 negative). -/
def orientation (p q r : Point) : Int :=
  ratSign ((q.x - p.x) * (r.y - p.y) - (q.y - p.y) * (r.x - p.x))

/-- utils.on_segment: bounding-box test with the source's one-sided
EPSILON slack. -/
def on_segment (p q r : Point) : Bool :=
  decide (min p.x q.x + EPSILON ≤ r.x) && decide (r.x ≤ max p.x q.x + EPSILON) &&
  decide (min p.y q.y + EPSILON ≤ r.y) && decide (r.y ≤ max p.y q.y + EPSILON)

/-- utils.do_intersect: segment intersection test of segments AB and CD. -/
def do_intersect (A B C D : Point) : Bool :=
  let o1 := orientation A B C
  let o2 := orientation A B D
  let o3 := orientation C D A
  let o4 := orientation C D B
  (decide (o1 ≠ o2) && decide (o3 ≠ o4)) ||
  (decide (o1 = 0) && on_segment A B C) ||
  (decide (o2 = 0) && on_segment A B D) ||
  (decide (o3 = 0) && on_segment C D A) ||
  (decide (o4 = 0) && on_segment C D B)

/-- Follows the spec's words (C2, "valid bundle model"): one bundle at an
interior vertex `v` with neighbours `p` and `n` is valid when the corner
sector is strictly smaller than pi (the corner is a genuine turn), every
outer endpoint lies strictly inside that sector and within the radius, and
the stored endpoints are in strictly ascending angular order from the ray
`v -> p` — the order `add_line_segment` maintains. The angular conditions
are expressed exactly by cross-product signs. -/
def valid_bundle (p v n : Point) (r : ℚ) (es : List Point) : Bool :=
  let s := ratSign (cross v p n)
  decide (s ≠ 0) && !es.isEmpty &&
  es.all (fun e => decide (ratSign (cross v p e) = s) &&
                   decide (ratSign (cross v e n) = s) &&
                   decide (dist_sq v e ≤ r^2)) &&
  (es.zip es.tail).all (fun q => decide (ratSign (cross v q.1 q.2) = s))

/-- Follows the spec's words (C2, "valid bundle model"): the bundle list
matches the skeleton, the skeleton has at least three pairwise distinct
vertices, the terminal bundles are empty and every interior bundle is
valid at its vertex. -/
def valid_bundle_model (seq : SequenceOfBundles) : Bool :=
  decide (seq.outer_endpoints.length = seq.skeleton.length) &&
  decide (3 ≤ seq.skeleton.length) &&
  seq.skeleton.Nodup &&
  (match seq.outer_endpoints.head?, seq.outer_endpoints.getLast? with
   | some [], some [] => true | _, _ => false) &&
  (List.range seq.skeleton.length).all (fun i =>
    if i = 0 || i = seq.skeleton.length - 1 then true
    else match seq.skeleton[i-1]?, seq.skeleton[i]?, seq.skeleton[i+1]?,
               seq.outer_endpoints[i]? with
      | some p, some v, some n, some es => valid_bundle p v n seq.radius es
      | _, _, _, _ => false)

/-- The closed boundary cycle of the polygon bounded by the chains P and Q
(which share their first and last points): P followed by the interior of Q
reversed. -/
def boundary_cycle (P Q : List Point) : List Point :=
  P ++ ((Q.reverse.drop 1).dropLast)

/-- Follows the spec's words ("simple polygon"): the boundary cycle has
pairwise distinct vertices, no two non-adjacent edges intersect — by the
source's own `do_intersect` test — and no vertex is a collinear fold-back. -/
def simple_boundary (cyc : List Point) : Bool :=
  cyc.Nodup &&
  (let es := cyc.zip (cyc.rotate 1)
   let m := es.length
   (List.range m).all (fun i => (List.range m).all (fun j =>
     if j ≤ i + 1 && i ≤ j + 1 then true
     else if i = 0 && j = m - 1 then true
     else if j = 0 && i = m - 1 then true
     else match es[i]?, es[j]? with
       | some a, some b => !(do_intersect a.1 a.2 b.1 b.2)
       | _, _ => true))) &&
  ((List.range cyc.length).all (fun i =>
     match cyc[(i + cyc.length - 1) % cyc.length]?, cyc[i]?, cyc[(i+1) % cyc.length]? with
     | some a, some b, some c =>
         !(decide (orientation a b c = 0) &&
           decide (0 < (a.x - b.x) * (c.x - b.x) + (a.y - b.y) * (c.y - b.y)))
     | _, _, _ => true))

/-- main.py runs the naive engine on the polygon derived from a sequence:
it builds `SimplePolygonFromSequenceOfBundle(sequence)` and hands its two
chains to `SimplePolygon.find_shortest_path`. -/
def run_naive (seq : SequenceOfBundles) (dir : Bool) (fuel : Nat) :
    Except Err (List Point) :=
  match SimplePolygonFromSequenceOfBundle.mk? seq with
  | .error e => .error e
  | .ok bp => (SimplePolygon.find_shortest_path ⟨bp.polyline_P, bp.polyline_Q⟩ dir fuel).2

/-- main.py runs the pruned engine directly:
`SimplePolygonFromSequenceOfBundle(sequence).find_shortest_path`. -/
def run_pruned (seq : SequenceOfBundles) (dir : Bool) (fuel : Nat) :
    Except Err (List Point) :=
  match SimplePolygonFromSequenceOfBundle.mk? seq with
  | .error e => .error e
  | .ok bp => (bp.find_shortest_path dir fuel).2

/-- A U-shaped skeleton with one three-segment bundle at each of its three
interior corners; every endpoint sits strictly inside its corner sector,
well within the radius, with angular gaps of several degrees. -/
def cex_seq : SequenceOfBundles :=
  ⟨[⟨0,0⟩, ⟨8,0⟩, ⟨8,6⟩, ⟨0,6⟩, ⟨0,3⟩], 10,
   [[],
    [⟨7, 1/2⟩, ⟨31/4, 1/4⟩, ⟨15/2, 1⟩],
    [⟨15/2, 5⟩, ⟨31/4, 23/4⟩, ⟨7, 11/2⟩],
    [⟨1, 11/2⟩, ⟨1/4, 23/4⟩, ⟨1/2, 5⟩],
    []]⟩


/-! ## General helper lemmas -/

theorem getLast?_of_ne_nil {l : List Point} (h : l ≠ []) :
    ∃ a, l.getLast? = some a := by
  cases hl : l.getLast? with
  | some a => exact ⟨a, rfl⟩
  | none => exact absurd (List.getLast?_eq_none_iff.mp hl) h

theorem head?_of_ne_nil {l : List Point} (h : l ≠ []) :
    ∃ a, l.head? = some a := by
  cases l with
  | nil => exact absurd rfl h
  | cons a t => exact ⟨a, rfl⟩

/-! ## C10: the `SimplePolygon` constructor -/

/-- C10: for non-empty chains, `SimplePolygon.__init__` raises ValueError
exactly when the chains disagree on their first or last point (exact
coordinate comparison); when the endpoints match it succeeds and stores both
chains unchanged, checking nothing else (in particular not simplicity). -/
theorem mk_simple_polygon_spec (P Q : List Point) (hP : P ≠ []) (hQ : Q ≠ []) :
    (SimplePolygon.mk? P Q = .error .valueErr ↔
      (P.head? ≠ Q.head? ∨ P.getLast? ≠ Q.getLast?)) ∧
    (∀ poly, SimplePolygon.mk? P Q = .ok poly →
      poly.polyline_P = P ∧ poly.polyline_Q = Q) ∧
    (P.head? = Q.head? → P.getLast? = Q.getLast? →
      SimplePolygon.mk? P Q = .ok ⟨P, Q⟩) := by
  obtain ⟨p0, hp0⟩ := head?_of_ne_nil hP
  obtain ⟨q0, hq0⟩ := head?_of_ne_nil hQ
  obtain ⟨pl, hpl⟩ := getLast?_of_ne_nil hP
  obtain ⟨ql, hql⟩ := getLast?_of_ne_nil hQ
  unfold SimplePolygon.mk?
  rw [hp0, hq0, hpl, hql]
  by_cases h1 : p0 = q0 <;> by_cases h2 : pl = ql <;> simp [h1, h2]

/-- Witness for C10 at concrete chains sharing both endpoints. -/
theorem mk_simple_polygon_spec_witness :
    SimplePolygon.mk? [(⟨0, 0⟩ : Point), ⟨1, 0⟩] [⟨0, 0⟩, ⟨1, 0⟩] =
      .ok ⟨[⟨0, 0⟩, ⟨1, 0⟩], [⟨0, 0⟩, ⟨1, 0⟩]⟩ :=
  (mk_simple_polygon_spec _ _ (by decide) (by decide)).2.2 rfl rfl

/-! ## C9: the engines never mutate the chains -/

theorem while_loop_fst (poly : SimplePolygon) :
    ∀ n path si curr dir, (while_loop poly n path si curr dir).1 = poly := by
  intro n
  induction n with
  | zero => intro path si curr dir; rfl
  | succ n ih =>
    intro path si curr dir
    unfold while_loop
    dsimp only
    repeat' split
    all_goals first | rfl | apply ih

theorem while_loop_b_fst (bp : SimplePolygonFromSequenceOfBundle) :
    ∀ n path si cid dir, (while_loop_b bp n path si cid dir).1 = bp := by
  intro n
  induction n with
  | zero => intro path si cid dir; rfl
  | succ n ih =>
    intro path si cid dir
    unfold while_loop_b
    dsimp only
    repeat' split
    all_goals first | rfl | apply ih

/-- C9: a call to either engine leaves `polyline_P` and `polyline_Q`
unchanged — the threaded polygon state after the call equals the one before,
element by element, for every polygon, starting direction and fuel. -/
theorem find_shortest_path_frame :
    (∀ (poly : SimplePolygon) (direction : Bool) (fuel : Nat),
      (poly.find_shortest_path direction fuel).1.polyline_P = poly.polyline_P ∧
      (poly.find_shortest_path direction fuel).1.polyline_Q = poly.polyline_Q) ∧
    (∀ (bp : SimplePolygonFromSequenceOfBundle) (direction : Bool) (fuel : Nat),
      (bp.find_shortest_path direction fuel).1.polyline_P = bp.polyline_P ∧
      (bp.find_shortest_path direction fuel).1.polyline_Q = bp.polyline_Q) := by
  constructor
  · intro poly direction fuel
    rw [SimplePolygon.find_shortest_path, while_loop_fst]
    exact ⟨rfl, rfl⟩
  · intro bp direction fuel
    rw [SimplePolygonFromSequenceOfBundle.find_shortest_path, while_loop_b_fst]
    exact ⟨rfl, rfl⟩

theorem decompose_go_length (id dirS : Int) :
    ∀ (rest : List Point) (p q : Point),
      (decompose_go id dirS p q rest).length = rest.length + 1 := by
  intro rest
  induction rest generalizing id dirS with
  | nil => intro p q; rfl
  | cons r rest ih =>
    intro p q
    unfold decompose_go
    dsimp only
    split
    · simp [ih]
    · split <;> simp [ih]

theorem decompose_length (l : List Point) :
    (decompose_polyline_to_convex_rope l).length = l.length := by
  match l with
  | [] => rfl
  | [a] => rfl
  | a :: b :: rest =>
    show (0 :: decompose_go 0 0 a b rest).length = _
    simp [decompose_go_length]

theorem build_chains_error_of_empty (skel : List Point)
    (buckets : List (List Point)) (labels : List Int) :
    ∀ (is : List Nat) (P Q : List Point) (lp lq : List Int),
      (∀ j ∈ is, j - 1 < skel.length ∧ j < skel.length ∧
        j < buckets.length ∧ j < labels.length) →
      (∃ i, i ∈ is ∧ buckets[i]? = some []) →
      build_chains skel buckets labels P Q lp lq is = .error .indexErr := by
  intro is
  induction is with
  | nil =>
    intro P Q lp lq _ hex
    obtain ⟨i, hi, _⟩ := hex
    exact absurd hi (List.not_mem_nil i)
  | cons j rest ih =>
    intro P Q lp lq hvalid hex
    obtain ⟨h1, h2, h3, h4⟩ := hvalid j (List.mem_cons_self j rest)
    unfold build_chains
    rw [List.getElem?_eq_getElem h1, List.getElem?_eq_getElem h2,
      List.getElem?_eq_getElem h3, List.getElem?_eq_getElem h4]
    dsimp only
    cases hbj : buckets[j] with
    | nil => rfl
    | cons b0 bs =>
      rw [List.getElem?_cons_zero]
      dsimp only
      have hex2 : ∃ i, i ∈ rest ∧ buckets[i]? = some [] := by
        obtain ⟨i, hi, hempty⟩ := hex
        rcases List.mem_cons.mp hi with heq | hmem
        · subst heq
          rw [List.getElem?_eq_getElem h3, hbj] at hempty
          simp at hempty
        · exact ⟨i, hmem, hempty⟩
      have hvalid2 : ∀ k ∈ rest, k - 1 < skel.length ∧ k < skel.length ∧
          k < buckets.length ∧ k < labels.length :=
        fun k hk => hvalid k (List.mem_cons_of_mem j hk)
      split <;> exact ih _ _ _ _ hvalid2 hex2

/-! ## C3: construction on models with an empty interior bundle -/

/-- C3 counterexample: on the spec's scenario A (skeleton
`[(0,0),(2,2),(4,1),(6,3),(8,0)]`, radius 3, no bundles on any interior
vertex) polygon construction does not succeed: it raises IndexError at
`sequence.outer_endpoints[i][0]` (the code warns it does not accept
degenerate bundles), so no chains and no path are produced. -/
theorem scenarioA_construction_raises :
    SimplePolygonFromSequenceOfBundle.mk?
      ⟨[⟨0, 0⟩, ⟨2, 2⟩, ⟨4, 1⟩, ⟨6, 3⟩, ⟨8, 0⟩], 3, [[], [], [], [], []]⟩ =
      .error .indexErr := by with_unfolding_all decide

/-- C3 amended: for every bundle model (with one endpoint list per skeleton
vertex) in which some interior skeleton vertex has an empty bundle, polygon
construction fails with IndexError instead of appending the vertex to both
chains. -/
theorem mk_from_sequence_empty_bundle_fails (seq : SequenceOfBundles) (i : Nat)
    (hlen : seq.outer_endpoints.length = seq.skeleton.length)
    (hi1 : 1 ≤ i) (hi2 : i + 2 ≤ seq.skeleton.length)
    (hb : seq.outer_endpoints[i]? = some []) :
    SimplePolygonFromSequenceOfBundle.mk? seq = .error .indexErr := by
  have hn : 0 < seq.skeleton.length := by omega
  unfold SimplePolygonFromSequenceOfBundle.mk?
  rw [List.getElem?_eq_getElem hn]
  dsimp only
  rw [build_chains_error_of_empty]
  · intro j hj
    have hj2 := List.mem_range'_1.mp hj
    have hlab := decompose_length seq.skeleton
    omega
  · refine ⟨i, List.mem_range'_1.mpr ⟨hi1, by omega⟩, hb⟩

/-- Witness for the amended C3 at a concrete model distinct from the
counterexample input. -/
theorem mk_from_sequence_empty_bundle_fails_witness :
    SimplePolygonFromSequenceOfBundle.mk?
      ⟨[⟨0, 0⟩, ⟨2, 2⟩, ⟨4, 1⟩, ⟨6, 3⟩, ⟨8, 0⟩], 100, [[], [], [], [], []]⟩ =
      .error .indexErr :=
  mk_from_sequence_empty_bundle_fails _ 1 (by decide) (by decide) (by decide)
    (by with_unfolding_all decide)

theorem head?_append_left (l l2 : List Point) (h : l ≠ []) :
    (l ++ l2).head? = l.head? := by
  cases l with
  | nil => exact absurd rfl h
  | cons a t => rfl

theorem append_ne_nil_left (l l2 : List Point) (h : l ≠ []) : l ++ l2 ≠ [] := by
  cases l with
  | nil => exact absurd rfl h
  | cons a t => simp

theorem build_chains_ok_head (skel : List Point) (buckets : List (List Point))
    (labels : List Int) :
    ∀ (is : List Nat) (P Q : List Point) (lp lq : List Int) out,
      build_chains skel buckets labels P Q lp lq is = .ok out →
      P ≠ [] → Q ≠ [] →
      out.1 ≠ [] ∧ out.1.head? = P.head? ∧
      out.2.1 ≠ [] ∧ out.2.1.head? = Q.head? := by
  intro is
  induction is with
  | nil =>
    intro P Q lp lq out h hP hQ
    unfold build_chains at h
    simp only [Except.ok.injEq] at h
    subst h
    exact ⟨hP, rfl, hQ, rfl⟩
  | cons j rest ih =>
    intro P Q lp lq out h hP hQ
    unfold build_chains at h
    repeat' split at h
    all_goals try exact (Except.noConfusion h)
    · obtain ⟨h1, h2, h3, h4⟩ := ih _ _ _ _ _ h
        (append_ne_nil_left _ _ hP) (append_ne_nil_left _ _ hQ)
    
      exact ⟨h1, h2.trans (head?_append_left _ _ hP), h3,
        h4.trans (head?_append_left _ _ hQ)⟩
    · obtain ⟨h1, h2, h3, h4⟩ := ih _ _ _ _ _ h
        (append_ne_nil_left _ _ hP) (append_ne_nil_left _ _ hQ)
      exact ⟨h1, h2.trans (head?_append_left _ _ hP), h3,
        h4.trans (head?_append_left _ _ hQ)⟩

/-- C5: whenever polygon construction from a bundle model succeeds, the two
chains agree with the skeleton's first vertex at position 0 and with the
skeleton's last vertex at the last position. -/
theorem mk_from_sequence_shared_endpoints (seq : SequenceOfBundles)
    (poly : SimplePolygonFromSequenceOfBundle)
    (h : SimplePolygonFromSequenceOfBundle.mk? seq = .ok poly) :
    poly.polyline_P.head? = seq.skeleton.head? ∧
    poly.polyline_Q.head? = seq.skeleton.head? ∧
    poly.polyline_P.getLast? = seq.skeleton.getLast? ∧
    poly.polyline_Q.getLast? = seq.skeleton.getLast? := by
  unfold SimplePolygonFromSequenceOfBundle.mk? at h
  cases hsk0 : seq.skeleton[0]? with
  | none => rw [hsk0] at h; exact (Except.noConfusion h)
  | some v0 =>
    rw [hsk0] at h
    dsimp only at h
    cases hbc : build_chains seq.skeleton seq.outer_endpoints
        (decompose_polyline_to_convex_rope seq.skeleton) [v0] [v0] [0] [0]
        (List.range' 1 (seq.skeleton.length - 2)) with
    | error e => rw [hbc] at h; exact (Except.noConfusion h)
    | ok out =>
      rw [hbc] at h
      obtain ⟨P, Q, lp, lq⟩ := out
      dsimp only at h
      cases hlast : seq.skeleton.getLast? with
      | none => rw [hlast] at h; exact (Except.noConfusion h)
      | some vl =>
        rw [hlast] at h
        cases hlastlab : (decompose_polyline_to_convex_rope seq.skeleton).getLast? with
        | none => rw [hlastlab] at h; exact (Except.noConfusion h)
        | some labl =>
          rw [hlastlab] at h
          dsimp only at h
          cases hmk : SimplePolygon.mk? (P ++ [vl]) (Q ++ [vl]) with
          | error e => rw [hmk] at h; exact (Except.noConfusion h)
          | ok sp =>
            rw [hmk] at h
            simp only [Except.ok.injEq] at h
            subst h
            obtain ⟨hP, hPh, hQ, hQh⟩ :=
              build_chains_ok_head _ _ _ _ _ _ _ _ _ hbc
                (by simp) (by simp)
            have hskh : seq.skeleton.head? = some v0 := by
              rw [List.head?_eq_getElem?, hsk0]
            refine ⟨?_, ?_, ?_, ?_⟩
            · show (P ++ [vl]).head? = _
              rw [head?_append_left _ _ hP, hPh, hskh]
              rfl
            · show (Q ++ [vl]).head? = _
              rw [head?_append_left _ _ hQ, hQh, hskh]
              rfl
            · show (P ++ [vl]).getLast? = _
              simp [List.getLast?_concat, hlast]
            · show (Q ++ [vl]).getLast? = _
              simp [List.getLast?_concat, hlast]

/-- Witness for C5 at a concrete bundle model with one interior bundle. -/
theorem mk_from_sequence_shared_endpoints_witness :
    SimplePolygonFromSequenceOfBundle.mk?
      ⟨[⟨0, 0⟩, ⟨2, 2⟩, ⟨4, 1⟩], 3, [[], [⟨2, 0⟩], []]⟩ =
      .ok ⟨[⟨0, 0⟩, ⟨2, 2⟩, ⟨4, 1⟩], [⟨0, 0⟩, ⟨2, 0⟩, ⟨4, 1⟩],
        [0, 1, 0], [0, 1, 0], [0, 1, 0]⟩ ∧
    ((⟨[⟨0, 0⟩, ⟨2, 2⟩, ⟨4, 1⟩], [⟨0, 0⟩, ⟨2, 0⟩, ⟨4, 1⟩],
        [0, 1, 0], [0, 1, 0], [0, 1, 0]⟩ :
        SimplePolygonFromSequenceOfBundle).polyline_P.head? =
      ([⟨0, 0⟩, ⟨2, 2⟩, ⟨4, 1⟩] : List Point).head? ∧
    (⟨[⟨0, 0⟩, ⟨2, 2⟩, ⟨4, 1⟩], [⟨0, 0⟩, ⟨2, 0⟩, ⟨4, 1⟩],
        [0, 1, 0], [0, 1, 0], [0, 1, 0]⟩ :
        SimplePolygonFromSequenceOfBundle).polyline_Q.head? =
      ([⟨0, 0⟩, ⟨2, 2⟩, ⟨4, 1⟩] : List Point).head? ∧
    (⟨[⟨0, 0⟩, ⟨2, 2⟩, ⟨4, 1⟩], [⟨0, 0⟩, ⟨2, 0⟩, ⟨4, 1⟩],
        [0, 1, 0], [0, 1, 0], [0, 1, 0]⟩ :
        SimplePolygonFromSequenceOfBundle).polyline_P.getLast? =
      ([⟨0, 0⟩, ⟨2, 2⟩, ⟨4, 1⟩] : List Point).getLast? ∧
    (⟨[⟨0, 0⟩, ⟨2, 2⟩, ⟨4, 1⟩], [⟨0, 0⟩, ⟨2, 0⟩, ⟨4, 1⟩],
        [0, 1, 0], [0, 1, 0], [0, 1, 0]⟩ :
        SimplePolygonFromSequenceOfBundle).polyline_Q.getLast? =
      ([⟨0, 0⟩, ⟨2, 2⟩, ⟨4, 1⟩] : List Point).getLast?) :=
  ⟨by with_unfolding_all decide,
    mk_from_sequence_shared_endpoints
      ⟨[⟨0, 0⟩, ⟨2, 2⟩, ⟨4, 1⟩], 3, [[], [⟨2, 0⟩], []]⟩ _
      (by with_unfolding_all decide)⟩

/-- C4: whenever the intersection set `Y*` is non-empty and no pair from
`X* x Y*` satisfies both weak side conditions of `verify_link` (i.e.
`find_link` returns none), the hull loop aborts with the
"Cannot find link" error instead of continuing; and the surrounding
`while True` sweep of `find_shortest_path` returns any error of its hull
loop unchanged, so no (partial or complete) path is returned. -/
theorem no_link_aborts :
    (∀ (dual : List Point) (goalv c0 : Point) (dir : Bool)
       (tangent path rest : List Point) (added left_tp right_tp : Point),
      tangent[(find_tangent_points tangent added dir).1]? = some left_tp →
      tangent[(find_tangent_points tangent added dir).2]? = some right_tp →
      compute_Ystar dual left_tp right_tp added dir ≠ [] →
      find_link
        (compute_Xstar tangent (find_tangent_points tangent added dir).1
          (find_tangent_points tangent added dir).2)
        (compute_Ystar dual left_tp right_tp added dir) dir = none →
      inner_loop dual goalv c0 dir tangent path (added :: rest) =
        .error .noLink) ∧
    (∀ (poly : SimplePolygon) (n : Nat) (path : List Point) (si : Nat)
       (curr : List Point) (dir : Bool) (goalv c0 c1 c2 : Point) (e : Err),
      poly.polyline_P.getLast? = some goalv →
      curr[si]? = some c0 → c0 ≠ goalv →
      curr[si + 1]? = some c1 → c1 ≠ goalv →
      curr[si + 2]? = some c2 →
      inner_loop
        (if curr = poly.polyline_P then poly.polyline_Q else poly.polyline_P)
        goalv c0 dir (if is_left c0 c1 c2 dir then [c0, c1] else [c1, c0])
        path (curr.drop (si + 2)) = .error e →
      (while_loop poly (n + 1) path si curr dir).2 = .error e) := by
  constructor
  · intro dual goalv c0 dir tangent path rest added left_tp right_tp
      h1 h2 hY hlink
    unfold inner_loop
    dsimp only
    rw [h1, h2]
    dsimp only
    rw [if_neg hY, hlink]
  · intro poly n path si curr dir goalv c0 c1 c2 e
      hgoal hc0 hc0ne hc1 hc1ne hc2 hinner
    unfold while_loop
    dsimp only
    rw [hgoal, hc0]
    dsimp only
    rw [if_neg hc0ne, hc1]
    dsimp only
    rw [if_neg hc1ne, hc2]
    dsimp only
    rw [hinner]


/-- Witness for C4: a concrete hull state whose intersection set is the
single point (0,0) surrounded by the `X*` candidates, where every candidate
pair fails `verify_link`, so the loop aborts; and a concrete sweep state
whose hull loop errors, which the sweep returns unchanged. -/
theorem no_link_aborts_witness :
    inner_loop [⟨0, 0⟩] ⟨99, 99⟩ ⟨0, 5⟩ true
      [⟨0, 5⟩, ⟨-4, -3⟩, ⟨4, -3⟩, ⟨0, -3⟩] [] [⟨0, 8⟩] = .error .noLink ∧
    (while_loop ⟨[⟨0, 0⟩, ⟨1, 0⟩, ⟨2, 0⟩], [⟨0, 0⟩, ⟨5, -5⟩, ⟨2, 0⟩]⟩ 1
      [] 0 [⟨0, 0⟩, ⟨1, 0⟩, ⟨2, 0⟩] true).2 = .error .valueErr :=
  ⟨no_link_aborts.1 [⟨0, 0⟩] ⟨99, 99⟩ ⟨0, 5⟩ true
      [⟨0, 5⟩, ⟨-4, -3⟩, ⟨4, -3⟩, ⟨0, -3⟩] [] [] ⟨0, 8⟩ ⟨4, -3⟩ ⟨-4, -3⟩
      (by with_unfolding_all decide) (by with_unfolding_all decide)
      (by with_unfolding_all decide) (by with_unfolding_all decide),
    no_link_aborts.2 ⟨[⟨0, 0⟩, ⟨1, 0⟩, ⟨2, 0⟩], [⟨0, 0⟩, ⟨5, -5⟩, ⟨2, 0⟩]⟩ 0
      [] 0 [⟨0, 0⟩, ⟨1, 0⟩, ⟨2, 0⟩] true ⟨2, 0⟩ ⟨0, 0⟩ ⟨1, 0⟩ ⟨2, 0⟩ .valueErr
      (by with_unfolding_all decide) (by with_unfolding_all decide)
      (by with_unfolding_all decide) (by with_unfolding_all decide)
      (by with_unfolding_all decide) (by with_unfolding_all decide)
      (by with_unfolding_all decide)⟩

/-! ## List lemmas for the engine proofs -/

theorem list_index_spec (p : Point) :
    ∀ (xs : List Point) (i : Nat), list_index xs p = some i → xs[i]? = some p := by
  intro xs
  induction xs with
  | nil => intro i h; exact Option.noConfusion h
  | cons q rest ih =>
    intro i h
    unfold list_index at h
    by_cases hq : q = p
    · simp only [hq, if_pos rfl] at h
      cases h
      simp [hq]
    · rw [if_neg hq] at h
      cases hrec : list_index rest p with
      | none => rw [hrec] at h; exact Option.noConfusion h
      | some j =>
        rw [hrec] at h
        cases h
        simpa using ih j hrec

theorem list_index_lt (xs : List Point) (p : Point) (i : Nat)
    (h : list_index xs p = some i) : i < xs.length :=
  (List.getElem?_eq_some.mp (list_index_spec p xs i h)).1

theorem drop_ne_nil_of_lt (xs : List Point) (i : Nat) (h : i < xs.length) :
    xs.drop i ≠ [] := by
  apply List.ne_nil_of_length_pos
  simp [List.length_drop]
  omega

theorem getLast?_drop_of_lt (xs : List Point) (i : Nat) (h : i < xs.length) :
    (xs.drop i).getLast? = xs.getLast? := by
  conv_rhs => rw [← List.take_append_drop i xs]
  exact (List.getLast?_append_of_ne_nil _ (drop_ne_nil_of_lt xs i h)).symm

theorem cons_append_singleton_getLast? (a : Point) (xs : List Point) :
    (a :: (xs ++ [a])).getLast? = some a := by
  show ([a] ++ (xs ++ [a])).getLast? = some a
  rw [List.getLast?_append_of_ne_nil _ (by simp), List.getLast?_concat]

theorem splice_tangent_getLast? (tangent : List Point) (l r : Nat) (a : Point) :
    (splice_tangent tangent l r a).getLast? = some a :=
  cons_append_singleton_getLast? a _

theorem get_tangent_line_spec (tangent : List Point) (sidx uidx : Nat)
    (c0 : Point) (hs : tangent[sidx]? = some c0) :
    get_tangent_line tangent sidx uidx ≠ [] ∧
    (get_tangent_line tangent sidx uidx).head? = some c0 := by
  have hlen := (List.getElem?_eq_some.mp hs).1
  unfold get_tangent_line
  split
  · constructor
    · exact append_ne_nil_left _ _ (drop_ne_nil_of_lt _ _ hlen)
    · rw [head?_append_left _ _ (drop_ne_nil_of_lt _ _ hlen),
        List.head?_drop, hs]
  · rename_i hle
    have h1 : sidx < (tangent.take (uidx + 1)).length := by
      simp only [List.length_take]
      omega
    constructor
    · exact drop_ne_nil_of_lt _ _ h1
    · rw [List.head?_drop, List.getElem?_take_of_lt (by omega), hs]

theorem goal_chunk_spec (t2 : List Point) (c0 : Point) (idx : Nat)
    (h : list_index t2 c0 = some idx) :
    t2.drop idx ≠ [] ∧ (t2.drop idx).head? = some c0 ∧
    (t2.drop idx).getLast? = t2.getLast? := by
  have hlt := list_index_lt _ _ _ h
  refine ⟨drop_ne_nil_of_lt _ _ hlt, ?_, getLast?_drop_of_lt _ _ hlt⟩
  rw [List.head?_drop]
  exact list_index_spec _ _ _ h

theorem inner_loop_ok_spec (dual : List Point) (goalv c0 : Point) (dir : Bool) :
    ∀ (rest tangent path : List Point),
      (∀ p, inner_loop dual goalv c0 dir tangent path rest = .ok (.goal p) →
        ∃ chunk, p = path ++ chunk ∧ chunk ≠ [] ∧ chunk.head? = some c0 ∧
          chunk.getLast? = some goalv) ∧
      (∀ p2 si2 curr2 dir2,
        inner_loop dual goalv c0 dir tangent path rest =
          .ok (.switched p2 si2 curr2 dir2) →
        (∃ chunk, p2 = path ++ chunk ∧ chunk ≠ [] ∧ chunk.head? = some c0) ∧
          curr2 = dual) := by
  intro rest
  induction rest with
  | nil =>
    intro tangent path
    exact ⟨fun p h => absurd h (by simp [inner_loop]),
      fun p2 si2 curr2 dir2 h => absurd h (by simp [inner_loop])⟩
  | cons added rest ih =>
    intro tangent path
    have key : ∀ (out : InnerNext),
        inner_loop dual goalv c0 dir tangent path (added :: rest) = .ok out →
        (∀ p, out = .goal p →
          ∃ chunk, p = path ++ chunk ∧ chunk ≠ [] ∧ chunk.head? = some c0 ∧
            chunk.getLast? = some goalv) ∧
        (∀ p2 si2 curr2 dir2, out = .switched p2 si2 curr2 dir2 →
          (∃ chunk, p2 = path ++ chunk ∧ chunk ≠ [] ∧
            chunk.head? = some c0) ∧ curr2 = dual) := by
      intro out h
      unfold inner_loop at h
      dsimp only at h
      cases hL : tangent[(find_tangent_points tangent added dir).1]? with
      | none => rw [hL] at h; exact Except.noConfusion h
      | some tl =>
      cases hR : tangent[(find_tangent_points tangent added dir).2]? with
      | none => rw [hL, hR] at h; exact Except.noConfusion h
      | some tr =>
      rw [hL, hR] at h
      dsimp only at h
      by_cases hY : compute_Ystar dual tl tr added dir = []
      · rw [if_pos hY] at h
        by_cases hadd : added = goalv
        · rw [if_pos hadd] at h
          cases hidx : list_index
              (splice_tangent tangent (find_tangent_points tangent added dir).1
                (find_tangent_points tangent added dir).2 added) c0 with
          | none => rw [hidx] at h; exact Except.noConfusion h
          | some idx =>
            rw [hidx] at h
            simp only [Except.ok.injEq] at h
            subst h
            constructor
            · intro p hp
              cases hp
              obtain ⟨h1, h2, h3⟩ := goal_chunk_spec _ _ _ hidx
              refine ⟨_, rfl, h1, h2, ?_⟩
              rw [h3, splice_tangent_getLast?, hadd]
            · intro p2 si2 curr2 dir2 hp
              exact InnerNext.noConfusion hp
        · rw [if_neg hadd] at h
          obtain ⟨ihg, ihs⟩ := ih _ path
          constructor
            
          · intro p hp
            subst hp
            exact ihg _ h
          · intro p2 si2 curr2 dir2 hp
            subst hp
            exact ihs _ _ _ _ h
      · rw [if_neg hY] at h
        cases hlink : find_link
            (compute_Xstar tangent (find_tangent_points tangent added dir).1
              (find_tangent_points tangent added dir).2)
            (compute_Ystar dual tl tr added dir) dir with
        | none => rw [hlink] at h; exact Except.noConfusion h
        | some UV =>
          rw [hlink] at h
          dsimp only at h
          cases hs : list_index tangent c0 with
          | none => rw [hs] at h; exact Except.noConfusion h
          | some sidx =>
          cases hu : list_index tangent UV.1 with
          | none => rw [hs, hu] at h; exact Except.noConfusion h
          | some uidx =>
          cases hv : list_index dual UV.2 with
          | none => rw [hs, hu, hv] at h; exact Except.noConfusion h
          | some vidx =>
            rw [hs, hu, hv] at h
            simp only [Except.ok.injEq] at h
            subst h
            constructor
            · intro p hp
              exact InnerNext.noConfusion hp
            · intro p2 si2 curr2 dir2 hp
              cases hp
              obtain ⟨h1, h2⟩ := get_tangent_line_spec tangent sidx uidx c0
                (list_index_spec _ _ _ hs)
              exact ⟨⟨_, rfl, h1, h2⟩, rfl⟩
    constructor
    · intro p h
      exact (key _ h).1 p rfl
    · intro p2 si2 curr2 dir2 h
      exact (key _ h).2 p2 si2 curr2 dir2 rfl

theorem append_ne_nil_right (l l2 : List Point) (h : l2 ≠ []) : l ++ l2 ≠ [] := by
  intro he
  exact h (List.append_eq_nil.mp he).2

theorem append_chunk_head (path chunk : List Point) (v0 c0 : Point)
    (hpath0 : path = [] → c0 = v0) (hpath1 : path ≠ [] → path.head? = some v0)
    (hchunk : chunk.head? = some c0) :
    (path ++ chunk).head? = some v0 := by
  by_cases hp : path = []
  · subst hp
    rw [List.nil_append, hchunk, hpath0 rfl]
  · rw [head?_append_left _ _ hp]
    exact hpath1 hp

theorem while_loop_ok_spec (poly : SimplePolygon) (v0 goalv : Point)
    (hg : poly.polyline_P.getLast? = some goalv) :
    ∀ (n : Nat) (path : List Point) (si : Nat) (curr : List Point)
      (dir : Bool) (p : List Point),
      (curr = poly.polyline_P ∨ curr = poly.polyline_Q) →
      (path = [] → curr[si]? = some v0) →
      (path ≠ [] → path.head? = some v0) →
      (while_loop poly n path si curr dir).2 = .ok p →
      p.head? = some v0 ∧ p.getLast? = some goalv := by
  intro n
  induction n with
  | zero =>
    intro path si curr dir p _ _ _ h
    exact Except.noConfusion h
  | succ n ihn =>
    intro path si curr dir p hcurr hpath0 hpath1 h
    unfold while_loop at h
    dsimp only at h
    rw [hg] at h
    cases hc0 : curr[si]? with
    | none => rw [hc0] at h; exact Except.noConfusion h
    | some c0 =>
    rw [hc0] at h
    dsimp only at h
    by_cases he0 : c0 = goalv
    · rw [if_pos he0] at h; exact Except.noConfusion h
    · rw [if_neg he0] at h
      cases hc1 : curr[si + 1]? with
      | none => rw [hc1] at h; exact Except.noConfusion h
      | some c1 =>
      rw [hc1] at h
      dsimp only at h
      by_cases he1 : c1 = goalv
      · rw [if_pos he1] at h
        dsimp only at h
        simp only [Except.ok.injEq] at h
        subst h
        constructor
        · exact append_chunk_head _ _ _ _
            (fun hp2 => by
              have := hpath0 hp2
              rw [hc0] at this
              exact Option.some.inj this)
            hpath1 rfl
        · rw [List.getLast?_append_of_ne_nil _ (by simp), ← he1]
          rfl
      · rw [if_neg he1] at h
        cases hc2 : curr[si + 2]? with
        | none => rw [hc2] at h; exact Except.noConfusion h
        | some c2 =>
        rw [hc2] at h
        dsimp only at h
        cases hinner : inner_loop
            (if curr = poly.polyline_P then poly.polyline_Q
             else poly.polyline_P) goalv c0 dir
            (if is_left c0 c1 c2 dir then [c0, c1] else [c1, c0]) path
            (curr.drop (si + 2)) with
        | error e => rw [hinner] at h; exact Except.noConfusion h
        | ok nxt =>
          rw [hinner] at h
          cases nxt with
          | goal pg =>
            dsimp only at h
            simp only [Except.ok.injEq] at h
            subst h
            obtain ⟨chunk, hpeq, hcne, hch, hcl⟩ :=
              (inner_loop_ok_spec _ _ _ _ _ _ _).1 _ hinner
            subst hpeq
            constructor
            · exact append_chunk_head _ _ _ _
                (fun hp2 => by
                  have := hpath0 hp2
                  rw [hc0] at this
                  exact Option.some.inj this)
                hpath1 hch
            · rw [List.getLast?_append_of_ne_nil _ hcne, hcl]
          | switched p2 si2 curr2 dir2 =>
            dsimp only at h
            obtain ⟨⟨chunk, hpeq, hcne, hch⟩, hcurr2⟩ :=
              (inner_loop_ok_spec _ _ _ _ _ _ _).2 _ _ _ _ hinner
            refine ihn p2 si2 curr2 dir2 p ?_ ?_ ?_ h
            · rw [hcurr2]
              by_cases hcp : curr = poly.polyline_P
              · rw [if_pos hcp]; right; rfl
              · rw [if_neg hcp]; left; rfl
            · intro hp2
              subst hpeq
              exact absurd hp2 (append_ne_nil_right _ _ hcne)
            · intro _
              subst hpeq
              exact append_chunk_head _ _ _ _
                (fun hpe => by
                  have := hpath0 hpe
                  rw [hc0] at this
                  exact Option.some.inj this)
                hpath1 hch
          | exhausted =>
            dsimp only at h
            exact ihn path si curr dir p hcurr hpath0 hpath1 h

theorem inner_loop_b_ok_spec (dual curr : List Point) (labels : List Int)
    (curr_label : Int) (goalv c0 : Point) (dir : Bool) (dual_id : Bool) :
    ∀ (is : List Nat) (tangent path : List Point),
      (∀ p, inner_loop_b dual curr labels curr_label goalv c0 dir dual_id
          tangent path is = .ok (.goal p) →
        ∃ chunk, p = path ++ chunk ∧ chunk ≠ [] ∧ chunk.head? = some c0 ∧
          chunk.getLast? = some goalv) ∧
      (∀ p2 si2 cid2 dir2,
        inner_loop_b dual curr labels curr_label goalv c0 dir dual_id
          tangent path is = .ok (.switched p2 si2 cid2 dir2) →
        ∃ chunk, p2 = path ++ chunk ∧ chunk ≠ [] ∧ chunk.head? = some c0) := by
  intro is
  induction is with
  | nil =>
    intro tangent path
    exact ⟨fun p h => absurd h (by simp [inner_loop_b]),
      fun p2 si2 cid2 dir2 h => absurd h (by simp [inner_loop_b])⟩
  | cons i is ih =>
    intro tangent path
    have key : ∀ (out : InnerNextB),
        inner_loop_b dual curr labels curr_label goalv c0 dir dual_id
          tangent path (i :: is) = .ok out →
        (∀ p, out = .goal p →
          ∃ chunk, p = path ++ chunk ∧ chunk ≠ [] ∧ chunk.head? = some c0 ∧
            chunk.getLast? = some goalv) ∧
        (∀ p2 si2 cid2 dir2, out = .switched p2 si2 cid2 dir2 →
          ∃ chunk, p2 = path ++ chunk ∧ chunk ≠ [] ∧
            chunk.head? = some c0) := by
      intro out h
      unfold inner_loop_b at h
      dsimp only at h
      cases hA : curr[i]? with
      | none => rw [hA] at h; exact Except.noConfusion h
      | some added =>
      rw [hA] at h
      dsimp only at h
      cases hL : tangent[(find_tangent_points tangent added dir).1]? with
      | none => rw [hL] at h; exact Except.noConfusion h
      | some tl =>
      cases hR : tangent[(find_tangent_points tangent added dir).2]? with
      | none => rw [hL, hR] at h; exact Except.noConfusion h
      | some tr =>
      rw [hL, hR] at h
      dsimp only at h
      cases hlab : labels[i]? with
      | none => rw [hlab] at h; exact Except.noConfusion h
      | some li =>
      rw [hlab] at h
      dsimp only at h
      cases hchk : (if li ≠ curr_label then (.ok true : Except Err Bool)
          else if li = 0 then
            (match labels[i - 1]? with
              | none => .error .indexErr
              | some lim1 => .ok (lim1 ≠ curr_label))
          else .ok false) with
      | error e => rw [hchk] at h; exact Except.noConfusion h
      | ok doCheck =>
      rw [hchk] at h
      dsimp only at h
      by_cases hcond : (doCheck = true ∧
          ¬ compute_Ystar dual tl tr added dir = [])
      · rw [if_pos hcond] at h
        cases hlink : find_link
            (compute_Xstar tangent (find_tangent_points tangent added dir).1
              (find_tangent_points tangent added dir).2)
            (compute_Ystar dual tl tr added dir) dir with
        | none => rw [hlink] at h; exact Except.noConfusion h
        | some UV =>
          rw [hlink] at h
          dsimp only at h
          cases hs : list_index tangent c0 with
          | none => rw [hs] at h; exact Except.noConfusion h
          | some sidx =>
          cases hu : list_index tangent UV.1 with
          | none => rw [hs, hu] at h; exact Except.noConfusion h
          | some uidx =>
          cases hv : list_index dual UV.2 with
          | none => rw [hs, hu, hv] at h; exact Except.noConfusion h
          | some vidx =>
            rw [hs, hu, hv] at h
            simp only [Except.ok.injEq] at h
            subst h
            constructor
            · intro p hpe
              exact InnerNextB.noConfusion hpe
            · intro p2 si2 cid2 dir2 hpe
              cases hpe
              obtain ⟨h1, h2⟩ := get_tangent_line_spec tangent sidx uidx c0
                (list_index_spec _ _ _ hs)
              exact ⟨_, rfl, h1, h2⟩
      · rw [if_neg hcond] at h
        by_cases hadd : added = goalv
        · rw [if_pos hadd] at h
          cases hidx : list_index (splice_tangent tangent
              (find_tangent_points tangent added dir).1
              (find_tangent_points tangent added dir).2 added) c0 with
          | none => rw [hidx] at h; exact Except.noConfusion h
          | some idx =>
            rw [hidx] at h
            simp only [Except.ok.injEq] at h
            subst h
            constructor
            · intro p hpe
              cases hpe
              obtain ⟨h1, h2, h3⟩ := goal_chunk_spec _ _ _ hidx
              refine ⟨_, rfl, h1, h2, ?_⟩
              rw [h3, splice_tangent_getLast?, hadd]
            · intro p2 si2 cid2 dir2 hpe
              exact InnerNextB.noConfusion hpe
        · rw [if_neg hadd] at h
          obtain ⟨ihg, ihs⟩ := ih _ path
          constructor
          · intro p hpe
            subst hpe
            exact ihg _ h
          · intro p2 si2 cid2 dir2 hpe
            subst hpe
            exact ihs _ _ _ _ h
    constructor
    · intro p h
      exact (key _ h).1 p rfl
    · intro p2 si2 cid2 dir2 h
      exact (key _ h).2 p2 si2 cid2 dir2 rfl

theorem while_loop_b_ok_spec (bp : SimplePolygonFromSequenceOfBundle)
    (v0 goalv : Point) (hg : bp.polyline_P.getLast? = some goalv) :
    ∀ (n : Nat) (path : List Point) (si : Nat) (cid dir : Bool)
      (p : List Point),
      (path = [] →
        (if cid then bp.polyline_P else bp.polyline_Q)[si]? = some v0) →
      (path ≠ [] → path.head? = some v0) →
      (while_loop_b bp n path si cid dir).2 = .ok p →
      p.head? = some v0 ∧ p.getLast? = some goalv := by
  intro n
  induction n with
  | zero =>
    intro path si cid dir p _ _ h
    exact Except.noConfusion h
  | succ n ihn =>
    intro path si cid dir p hpath0 hpath1 h
    unfold while_loop_b at h
    dsimp only at h
    rw [hg] at h
    cases hc0 : (if cid then bp.polyline_P else bp.polyline_Q)[si]? with
    | none => rw [hc0] at h; exact Except.noConfusion h
    | some c0 =>
    rw [hc0] at h
    dsimp only at h
    by_cases he0 : c0 = goalv
    · rw [if_pos he0] at h; exact Except.noConfusion h
    · rw [if_neg he0] at h
      cases hc1 : (if cid then bp.polyline_P else bp.polyline_Q)[si + 1]? with
      | none => rw [hc1] at h; exact Except.noConfusion h
      | some c1 =>
      rw [hc1] at h
      dsimp only at h
      by_cases he1 : c1 = goalv
      · rw [if_pos he1] at h
        dsimp only at h
        simp only [Except.ok.injEq] at h
        subst h
        constructor
        · exact append_chunk_head _ _ _ _
            (fun hp2 => by
              have := hpath0 hp2
              rw [hc0] at this
              exact Option.some.inj this)
            hpath1 rfl
        · rw [List.getLast?_append_of_ne_nil _ (by simp), ← he1]
          rfl
      · rw [if_neg he1] at h
        cases hc2 : (if cid then bp.polyline_P else bp.polyline_Q)[si + 2]? with
        | none => rw [hc2] at h; exact Except.noConfusion h
        | some c2 =>
        rw [hc2] at h
        dsimp only at h
        cases hl0 : (if cid then bp.cv_rope_label_on_P
            else bp.cv_rope_label_on_Q)[si]? with
        | none => rw [hl0] at h; exact Except.noConfusion h
        | some l0 =>
        rw [hl0] at h
        dsimp only at h
        cases hcl : (if l0 = 0 then
            (if cid then bp.cv_rope_label_on_P
              else bp.cv_rope_label_on_Q)[si + 1]?
          else some l0) with
        | none => rw [hcl] at h; exact Except.noConfusion h
        | some curr_label =>
        rw [hcl] at h
        dsimp only at h
        cases hinner : inner_loop_b
            (if (if cid then bp.polyline_P else bp.polyline_Q) =
                bp.polyline_P then bp.polyline_Q else bp.polyline_P)
            (if cid then bp.polyline_P else bp.polyline_Q)
            (if cid then bp.cv_rope_label_on_P else bp.cv_rope_label_on_Q)
            curr_label goalv c0 dir
            (decide ¬ (if cid then bp.polyline_P else bp.polyline_Q) =
              bp.polyline_P)
            (if is_left c0 c1 c2 dir then [c0, c1] else [c1, c0]) path
            (List.range' (si + 2)
              ((if cid then bp.polyline_P else bp.polyline_Q).length -
                (si + 2))) with
        | error e => rw [hinner] at h; exact Except.noConfusion h
        | ok nxt =>
          rw [hinner] at h
          cases nxt with
          | goal pg =>
            dsimp only at h
            simp only [Except.ok.injEq] at h
            subst h
            obtain ⟨chunk, hpeq, hcne, hch, hcl2⟩ :=
              (inner_loop_b_ok_spec _ _ _ _ _ _ _ _ _ _ _).1 _ hinner
            subst hpeq
            constructor
            · exact append_chunk_head _ _ _ _
                (fun hp2 => by
                  have := hpath0 hp2
                  rw [hc0] at this
                  exact Option.some.inj this)
                hpath1 hch
            · rw [List.getLast?_append_of_ne_nil _ hcne, hcl2]
          | switched p2 si2 cid2 dir2 =>
            dsimp only at h
            obtain ⟨chunk, hpeq, hcne, hch⟩ :=
              (inner_loop_b_ok_spec _ _ _ _ _ _ _ _ _ _ _).2 _ _ _ _ hinner
            refine ihn p2 si2 cid2 dir2 p ?_ ?_ h
            · intro hp2
              subst hpeq
              exact absurd hp2 (append_ne_nil_right _ _ hcne)
            · intro _
              subst hpeq
              exact append_chunk_head _ _ _ _
                (fun hpe => by
                  have := hpath0 hpe
                  rw [hc0] at this
                  exact Option.some.inj this)
                hpath1 hch
          | exhausted =>
            dsimp only at h
            exact ihn path si cid dir p hpath0 hpath1 h

/-- C1: whenever `find_shortest_path` (naive or convex-rope-pruned engine)
returns a point sequence on a polygon whose chains share their first point
and their last point, that sequence starts at `polyline_P[0]` and ends at
`polyline_P[last]`. -/
theorem shortest_path_endpoints :
    (∀ (poly : SimplePolygon) (direction : Bool) (fuel : Nat)
       (p : List Point) (v0 goalv : Point),
      poly.polyline_P.head? = some v0 →
      poly.polyline_Q.head? = some v0 →
      poly.polyline_P.getLast? = some goalv →
      poly.polyline_Q.getLast? = some goalv →
      (poly.find_shortest_path direction fuel).2 = .ok p →
      p.head? = poly.polyline_P.head? ∧
      p.getLast? = poly.polyline_P.getLast?) ∧
    (∀ (bp : SimplePolygonFromSequenceOfBundle) (direction : Bool)
       (fuel : Nat) (p : List Point) (v0 goalv : Point),
      bp.polyline_P.head? = some v0 →
      bp.polyline_Q.head? = some v0 →
      bp.polyline_P.getLast? = some goalv →
      bp.polyline_Q.getLast? = some goalv →
      (bp.find_shortest_path direction fuel).2 = .ok p →
      p.head? = bp.polyline_P.head? ∧
      p.getLast? = bp.polyline_P.getLast?) := by
  constructor
  · intro poly direction fuel p v0 goalv hp hq hg hgq h
    unfold SimplePolygon.find_shortest_path at h
    have := while_loop_ok_spec poly v0 goalv hg fuel [] 0
      (if direction then poly.polyline_P else poly.polyline_Q) direction p
      (by cases direction <;> simp) ?_ (fun hne => absurd rfl hne) h
    · rw [hp, hg]
      exact this
    · intro _
      rw [← List.head?_eq_getElem?]
      cases direction <;> simpa
  · intro bp direction fuel p v0 goalv hp hq hg hgq h
    unfold SimplePolygonFromSequenceOfBundle.find_shortest_path at h
    have := while_loop_b_ok_spec bp v0 goalv hg fuel [] 0
      direction direction p ?_ (fun hne => absurd rfl hne) h
    · rw [hp, hg]
      exact this
    · intro _
      rw [← List.head?_eq_getElem?]
      cases direction <;> simpa

/-- Witness for C1: both engines on a two-point polygon return the chain
itself, which starts at `P[0]` and ends at `P[last]`. -/
theorem shortest_path_endpoints_witness :
    ((SimplePolygon.find_shortest_path
        ⟨[⟨0, 0⟩, ⟨1, 0⟩], [⟨0, 0⟩, ⟨1, 0⟩]⟩ true 1).2 =
      .ok [⟨0, 0⟩, ⟨1, 0⟩] ∧
      ([⟨0, 0⟩, ⟨1, 0⟩] : List Point).head? = some ⟨0, 0⟩ ∧
      ([⟨0, 0⟩, ⟨1, 0⟩] : List Point).getLast? = some ⟨1, 0⟩) ∧
    ((SimplePolygonFromSequenceOfBundle.find_shortest_path
        ⟨[⟨0, 0⟩, ⟨1, 0⟩], [⟨0, 0⟩, ⟨1, 0⟩], [0, 0], [0, 0], [0, 0]⟩
        true 1).2 = .ok [⟨0, 0⟩, ⟨1, 0⟩] ∧
      ([⟨0, 0⟩, ⟨1, 0⟩] : List Point).head? = some ⟨0, 0⟩ ∧
      ([⟨0, 0⟩, ⟨1, 0⟩] : List Point).getLast? = some ⟨1, 0⟩) := by
  constructor
  · refine ⟨by with_unfolding_all decide, ?_⟩
    have := shortest_path_endpoints.1
      ⟨[⟨0, 0⟩, ⟨1, 0⟩], [⟨0, 0⟩, ⟨1, 0⟩]⟩ true 1 [⟨0, 0⟩, ⟨1, 0⟩]
      ⟨0, 0⟩ ⟨1, 0⟩ rfl rfl rfl rfl (by with_unfolding_all decide)
    exact this
  · refine ⟨by with_unfolding_all decide, ?_⟩
    have := shortest_path_endpoints.2
      ⟨[⟨0, 0⟩, ⟨1, 0⟩], [⟨0, 0⟩, ⟨1, 0⟩], [0, 0], [0, 0], [0, 0]⟩ true 1
      [⟨0, 0⟩, ⟨1, 0⟩] ⟨0, 0⟩ ⟨1, 0⟩ rfl rfl rfl rfl
      (by with_unfolding_all decide)
    exact this

/-! ## C6: the preprocessing clamp -/

/-- C2: counterexample exposing a code bug. `cex_seq` is a valid bundle model
whose derived polygon is simple, yet with direction = false (the direction
main.py actually uses for both engines) the naive engine returns a five-point
path winding through the U-shaped corridor while the convex-rope-pruned
engine skips every intersection test — all interior skeleton vertices carry
the same convex-rope label — and returns the two-point chord [(0,0), (0,3)],
which leaves the polygon. The outputs differ, and so do their total
Euclidean lengths: the pruned path has length exactly 3, while the naive
path's first segment alone has squared length 481/8 > 3^2. -/
theorem engines_diverge_c2 :
    valid_bundle_model cex_seq = true ∧
    (SimplePolygonFromSequenceOfBundle.mk? cex_seq).toOption.map
      (fun bp => simple_boundary (boundary_cycle bp.polyline_P bp.polyline_Q)) =
      some true ∧
    run_naive cex_seq false 100 =
      Except.ok [⟨0,0⟩, ⟨31/4, 1/4⟩, ⟨31/4, 23/4⟩, ⟨1/4, 23/4⟩, ⟨0,3⟩] ∧
    run_pruned cex_seq false 100 = Except.ok [⟨0,0⟩, ⟨0,3⟩] ∧
    (3 : ℚ)^2 < dist_sq ⟨0,0⟩ ⟨31/4, 1/4⟩ := by
  refine ⟨by with_unfolding_all decide, by with_unfolding_all decide,
    by with_unfolding_all decide, by with_unfolding_all decide,
    by with_unfolding_all decide⟩


theorem pair_combinations_mem :
    ∀ (l : List Point) (a b : Point), (a, b) ∈ pair_combinations l →
      a ∈ l ∧ b ∈ l := by
  intro l
  induction l with
  | nil => intro a b h; exact absurd h (List.not_mem_nil _)
  | cons x rest ih =>
    intro a b h
    unfold pair_combinations at h
    rcases List.mem_append.mp h with h1 | h2
    · obtain ⟨y, hy, heq⟩ := List.mem_map.mp h1
      cases heq
      exact ⟨List.mem_cons_self _ _, List.mem_cons_of_mem _ hy⟩
    · obtain ⟨ha, hb⟩ := ih a b h2
      exact ⟨List.mem_cons_of_mem _ ha, List.mem_cons_of_mem _ hb⟩

theorem foldl_min_nonneg (d : ℚ) (ds : List ℚ) (hd : 0 ≤ d)
    (hds : ∀ x ∈ ds, 0 ≤ x) : 0 ≤ ds.foldl min d := by
  induction ds generalizing d with
  | nil => exact hd
  | cons x rest ih =>
    exact ih (min d x) (le_min hd (hds x (List.mem_cons_self _ _)))
      (fun y hy => hds y (List.mem_cons_of_mem _ hy))

theorem min_radius_nonneg (sqrtO : ℚ → ℚ) (s : SequenceOfBundles) (mr : ℚ)
    (hsk : ∀ a ∈ s.skeleton, ∀ b ∈ s.skeleton, 0 ≤ sqrtO (dist_sq a b))
    (hmr : min_radius sqrtO s = some mr) : 0 ≤ mr := by
  unfold min_radius at hmr
  cases hcomb : (pair_combinations s.skeleton).map
      (fun ab => calculate_distance sqrtO ab.1 ab.2) with
  | nil => rw [hcomb] at hmr; exact Option.noConfusion hmr
  | cons d ds =>
    rw [hcomb] at hmr
    simp only [Option.some.injEq] at hmr
    subst hmr
    have hmem : ∀ x ∈ d :: ds, 0 ≤ x := by
      intro x hx
      rw [← hcomb] at hx
      obtain ⟨⟨a, b⟩, hab, heq⟩ := List.mem_map.mp hx
      obtain ⟨ha, hb⟩ := pair_combinations_mem _ _ _ hab
      rw [← heq]
      exact hsk a ha b hb
    have h0 : 0 ≤ ds.foldl min d :=
      foldl_min_nonneg d ds (hmem d (List.mem_cons_self _ _))
        (fun x hx => hmem x (List.mem_cons_of_mem _ hx))
    positivity

theorem clamped_dist_sq (sqrtO : ℚ → ℚ) (mr : ℚ) (v e : Point)
    (hsq : (sqrtO (dist_sq v e)) ^ 2 = dist_sq v e)
    (hne : sqrtO (dist_sq v e) ≠ 0) :
    dist_sq v (clamp_endpoint sqrtO mr v e) = mr ^ 2 := by
  unfold clamp_endpoint dist_sq
  show ((v.x - (v.x + (e.x - v.x) / sqrtO (dist_sq v e) * mr)) ^ 2 +
    (v.y - (v.y + (e.y - v.y) / sqrtO (dist_sq v e) * mr)) ^ 2) = mr ^ 2
  have hd : (sqrtO (dist_sq v e)) ^ 2 = (v.x - e.x) ^ 2 + (v.y - e.y) ^ 2 := by
    rw [hsq]; rfl
  field_simp
  ring_nf
  nlinarith [hd, sq_nonneg (sqrtO (dist_sq v e))]

/-- C6: after `preprocess()` succeeds, every stored outer endpoint lies
within the effective radius `min_radius` (half the minimum pairwise skeleton
distance) of its skeleton vertex.  Distances are compared squared, which over
exact arithmetic is equivalent to comparing the (nonnegative) distances; the
square-root oracle is constrained exactly on the values the code feeds it. -/
theorem preprocess_clamps (sqrtO : ℚ → ℚ) (s s2 : SequenceOfBundles) (mr : ℚ)
    (hsk : ∀ a ∈ s.skeleton, ∀ b ∈ s.skeleton, 0 ≤ sqrtO (dist_sq a b))
    (hep : ∀ (i : Nat) (v : Point) (b : List Point) (e : Point),
      s.skeleton[i]? = some v →
      s.outer_endpoints[i]? = some b → e ∈ b →
      0 ≤ sqrtO (dist_sq v e) ∧ (sqrtO (dist_sq v e)) ^ 2 = dist_sq v e)
    (hmr : min_radius sqrtO s = some mr)
    (hpre : s.preprocess sqrtO = .ok s2) :
    0 ≤ mr ∧
    (∀ (i : Nat) (v : Point) (b2 : List Point) (e2 : Point),
      s2.skeleton[i]? = some v →
      s2.outer_endpoints[i]? = some b2 → e2 ∈ b2 →
      dist_sq v e2 ≤ mr ^ 2) := by
  have hmr0 := min_radius_nonneg sqrtO s mr hsk hmr
  refine ⟨hmr0, ?_⟩
  unfold SequenceOfBundles.preprocess at hpre
  rw [hmr] at hpre
  simp only [Except.ok.injEq] at hpre
  subst hpre
  intro i v b2 e2 hvi hb2 he2
  simp only [List.getElem?_map] at hb2
  cases hz : (s.skeleton.zip s.outer_endpoints)[i]? with
  | none => rw [hz] at hb2; exact Option.noConfusion hb2
  | some vb =>
    rw [hz] at hb2
    simp only [Option.map_some'] at hb2
    obtain ⟨vz, bucket⟩ := vb
    have hzz : s.skeleton[i]? = some vz ∧ s.outer_endpoints[i]? = some bucket := by
      have := (List.getElem?_zip_eq_some).mp hz
      exact this
    have hvz : vz = v := by
      have := hzz.1
      rw [hvi] at this
      exact (Option.some.inj this).symm
    subst hvz
    have hb2' : b2 = bucket.map (fun ep =>
        if calculate_distance sqrtO vz ep > mr then
          clamp_endpoint sqrtO mr vz ep
        else ep) := by
      simpa using hb2.symm
    subst hb2'
    obtain ⟨e, hee, heq⟩ := List.mem_map.mp he2
    obtain ⟨hnn, hsq⟩ := hep i vz bucket e hzz.1 hzz.2 hee
    by_cases hcl : calculate_distance sqrtO vz e > mr
    · rw [if_pos hcl] at heq
      subst heq
      rw [clamped_dist_sq sqrtO mr vz e hsq]
      · intro h0
        unfold calculate_distance at hcl
        rw [h0] at hcl
        linarith
    · rw [if_neg hcl] at heq
      subst heq
      rw [← hsq]
      have hle : sqrtO (dist_sq vz e) ≤ mr := not_lt.mp hcl
      exact pow_le_pow_left₀ hnn hle 2

/-- Witness for C6: a concrete model whose skeleton distances are perfect
squares (so the oracle is an exact square root on every value the code
uses); the one over-length endpoint is clamped onto the effective radius. -/
theorem preprocess_clamps_witness :
    min_radius (fun q => if q = 9 then 3 else if q = 16 then 4
        else if q = 49 then 7 else if q = 4 then 2 else 0)
      ⟨[⟨0, 0⟩, ⟨3, 0⟩, ⟨7, 0⟩], 10, [[], [⟨3, 2⟩], []]⟩ = some (3 / 2) ∧
    SequenceOfBundles.preprocess (fun q => if q = 9 then 3 else if q = 16 then 4
        else if q = 49 then 7 else if q = 4 then 2 else 0)
      ⟨[⟨0, 0⟩, ⟨3, 0⟩, ⟨7, 0⟩], 10, [[], [⟨3, 2⟩], []]⟩ =
      .ok ⟨[⟨0, 0⟩, ⟨3, 0⟩, ⟨7, 0⟩], 10, [[], [⟨3, 3 / 2⟩], []]⟩ ∧
    dist_sq ⟨3, 0⟩ ⟨3, 3 / 2⟩ ≤ (3 / 2 : ℚ) ^ 2 := by
  refine ⟨by with_unfolding_all decide, by with_unfolding_all decide, ?_⟩
  refine (preprocess_clamps
    (fun q => if q = 9 then 3 else if q = 16 then 4
      else if q = 49 then 7 else if q = 4 then 2 else 0)
    ⟨[⟨0, 0⟩, ⟨3, 0⟩, ⟨7, 0⟩], 10, [[], [⟨3, 2⟩], []]⟩
    ⟨[⟨0, 0⟩, ⟨3, 0⟩, ⟨7, 0⟩], 10, [[], [⟨3, 3 / 2⟩], []]⟩ (3 / 2)
    (by with_unfolding_all decide) ?_
    (by with_unfolding_all decide) (by with_unfolding_all decide)).2
    1 ⟨3, 0⟩ [⟨3, 3 / 2⟩] ⟨3, 3 / 2⟩
    (by with_unfolding_all decide) (by with_unfolding_all decide)
    (by with_unfolding_all decide)
  intro i v b e hi hb he
  have h3 : i < 3 := by
    have := (List.getElem?_eq_some.mp hi).1
    simpa using this
  interval_cases i
  · simp only [List.getElem?_cons_zero, Option.some.injEq] at hb
    subst hb
    exact absurd he (List.not_mem_nil e)
  · simp only [List.getElem?_cons_succ, List.getElem?_cons_zero,
      Option.some.injEq] at hi hb
    subst hi
    subst hb
    have he2 : e = ⟨3, 2⟩ := by simpa using he
    subst he2
    exact ⟨by with_unfolding_all decide, by with_unfolding_all decide⟩
  · simp only [List.getElem?_cons_succ, List.getElem?_cons_zero,
      Option.some.injEq] at hb
    subst hb
    exact absurd he (List.not_mem_nil e)

/-! ## C7 and C8: the bundle model under `add_line_segment` -/

theorem set_getElem?_id {α : Type} [DecidableEq α] :
    ∀ (l : List α) (i : Nat) (a : α), l[i]? = some a → l.set i a = l := by
  intro l
  induction l with
  | nil => intro i a h; exact Option.noConfusion h
  | cons x rest ih =>
    intro i a h
    cases i with
    | zero =>
      simp only [List.getElem?_cons_zero, Option.some.injEq] at h
      subst h
      rfl
    | succ j =>
      simp only [List.getElem?_cons_succ] at h
      rw [List.set_cons_succ, ih j a h]

theorem chain_all_larger (angV : Point → Point → Point → ℚ)
    (prev v : Point) :
    ∀ (rest : List Point) (p : Point),
      List.Chain' (angle_asc angV prev v) (p :: rest) →
      ∀ q ∈ rest, is_larger_angle (angV prev v q) (angV prev v p) = true := by
  intro rest
  induction rest with
  | nil => intro p _ q hq; exact absurd hq (List.not_mem_nil q)
  | cons r rest ih =>
    intro p hch q hq
    have h1 : angle_asc angV prev v p r := (List.chain'_cons.mp hch).1
    have h2 := (List.chain'_cons.mp hch).2
    rcases List.mem_cons.mp hq with rfl | hq2
    · exact h1
    · have h3 := ih r h2 q hq2
      unfold angle_asc at h1
      unfold is_larger_angle at h1 h3 ⊢
      simp only [decide_eq_true_eq] at h1 h3 ⊢
      have heps : (0 : ℚ) < EPSILON := by norm_num [EPSILON]
      linarith

theorem calculate_angle_ok (angV : Point → Point → Point → ℚ)
    (A B C : Point) (a : ℚ) (h : calculate_angle angV A B C = .ok a) :
    a = angV A B C := by
  unfold calculate_angle at h
  by_cases hc : A = B ∨ C = B
  · rw [if_pos hc] at h; exact Except.noConfusion h
  · rw [if_neg hc] at h; exact (Except.ok.inj h).symm

theorem eps_pos : (0 : ℚ) < EPSILON := by norm_num [EPSILON]

theorem insert_endpoint_sorted (angV : Point → Point → Point → ℚ)
    (prev v ep : Point) :
    ∀ (b b2 : List Point), insert_endpoint angV prev v ep b = .ok b2 →
      List.Chain' (angle_asc angV prev v) b →
      List.Chain' (angle_asc angV prev v) b2 ∧
      (∀ q, b2.head? = some q → b.head? = some q ∨ q = ep) := by
  intro b
  induction b with
  | nil =>
    intro b2 h hch
    unfold insert_endpoint at h
    simp only [Except.ok.injEq] at h
    subst h
    exact ⟨List.chain'_singleton ep,
      fun q hq => Or.inr (Option.some.inj hq).symm⟩
  | cons p rest ih =>
    intro b2 h hch
    unfold insert_endpoint at h
    cases hca1 : calculate_angle angV prev v p with
    | error e => rw [hca1] at h; exact Except.noConfusion h
    | ok a1 =>
    rw [hca1] at h
    dsimp only at h
    cases hca2 : calculate_angle angV prev v ep with
    | error e => rw [hca2] at h; exact Except.noConfusion h
    | ok a2 =>
    rw [hca2] at h
    dsimp only at h
    have ha1 := calculate_angle_ok _ _ _ _ _ hca1
    have ha2 := calculate_angle_ok _ _ _ _ _ hca2
    by_cases hL : is_larger_angle a1 a2 = true
    · rw [if_pos hL] at h
      simp only [Except.ok.injEq] at h
      subst h
      refine ⟨List.chain'_cons.mpr ⟨?_, hch⟩,
        fun q hq => Or.inr (Option.some.inj hq).symm⟩
      unfold angle_asc
      rw [← ha1, ← ha2]
      exact hL
    · rw [if_neg hL] at h
      by_cases hE : is_equal_angle a1 a2 = true
      · rw [if_pos hE] at h
        simp only [Except.ok.injEq] at h
        subst h
        exact ⟨hch, fun q hq => Or.inl hq⟩
      · rw [if_neg hE] at h
        cases hrec : insert_endpoint angV prev v ep rest with
        | error e => rw [hrec] at h; exact Except.noConfusion h
        | ok rest2 =>
          rw [hrec] at h
          simp only [Except.ok.injEq] at h
          subst h
          obtain ⟨hch2, hhead⟩ := ih rest2 hrec (List.Chain'.tail hch)
          refine ⟨?_, fun q hq => Or.inl hq⟩
          cases hr2 : rest2 with
          | nil => exact List.chain'_singleton p
          | cons q rest2' =>
            subst hr2
            refine List.chain'_cons.mpr ⟨?_, hch2⟩
            rcases hhead q rfl with hq1 | hq2
            · cases rest with
              | nil => exact Option.noConfusion hq1
              | cons r0 rest' =>
                have hr0 : r0 = q := Option.some.inj hq1
                subst hr0
                exact (List.chain'_cons.mp hch).1
            · subst hq2
              unfold angle_asc
              rw [← ha1, ← ha2]
              unfold is_larger_angle at hL ⊢
              unfold is_equal_angle at hE
              simp only [decide_eq_true_eq] at hL hE ⊢
              rw [abs_le] at hE
              push_neg at hE
              rcases lt_or_ge (a1 - a2) (-EPSILON) with hlt | hge
              · linarith
              · exact absurd (hE hge) (not_lt.mpr (not_lt.mp hL))

theorem insert_endpoint_noop (angV : Point → Point → Point → ℚ)
    (prev v ep : Point) :
    ∀ (b b2 : List Point), insert_endpoint angV prev v ep b = .ok b2 →
      List.Chain' (angle_asc angV prev v) b →
      (∃ p ∈ b, is_equal_angle (angV prev v p) (angV prev v ep) = true) →
      b2 = b := by
  intro b
  induction b with
  | nil =>
    intro b2 h hch hdup
    obtain ⟨p, hp, _⟩ := hdup
    exact absurd hp (List.not_mem_nil p)
  | cons p rest ih =>
    intro b2 h hch hdup
    unfold insert_endpoint at h
    cases hca1 : calculate_angle angV prev v p with
    | error e => rw [hca1] at h; exact Except.noConfusion h
    | ok a1 =>
    rw [hca1] at h
    dsimp only at h
    cases hca2 : calculate_angle angV prev v ep with
    | error e => rw [hca2] at h; exact Except.noConfusion h
    | ok a2 =>
    rw [hca2] at h
    dsimp only at h
    have ha1 := calculate_angle_ok _ _ _ _ _ hca1
    have ha2 := calculate_angle_ok _ _ _ _ _ hca2
    by_cases hL : is_larger_angle a1 a2 = true
    · exfalso
      obtain ⟨q, hq, hqe⟩ := hdup
      rcases List.mem_cons.mp hq with rfl | hq2
      · unfold is_larger_angle at hL
        unfold is_equal_angle at hqe
        rw [← ha1, ← ha2] at hqe
        simp only [decide_eq_true_eq] at hL hqe
        rw [abs_le] at hqe
        linarith [eps_pos, hqe.2]
      · have hbig := chain_all_larger angV prev v rest p hch q hq2
        unfold is_larger_angle at hL hbig
        unfold is_equal_angle at hqe
        rw [← ha1] at hbig
        rw [← ha2] at hqe
        simp only [decide_eq_true_eq] at hL hbig hqe
        rw [abs_le] at hqe
        linarith [eps_pos, hqe.2]
    · rw [if_neg hL] at h
      by_cases hE : is_equal_angle a1 a2 = true
      · rw [if_pos hE] at h
        simp only [Except.ok.injEq] at h
        exact h.symm ▸ rfl
      · rw [if_neg hE] at h
        cases hrec : insert_endpoint angV prev v ep rest with
        | error e => rw [hrec] at h; exact Except.noConfusion h
        | ok rest2 =>
          rw [hrec] at h
          simp only [Except.ok.injEq] at h
          subst h
          have hdup2 : ∃ q ∈ rest,
              is_equal_angle (angV prev v q) (angV prev v ep) = true := by
            obtain ⟨q, hq, hqe⟩ := hdup
            rcases List.mem_cons.mp hq with rfl | hq2
            · exfalso
              rw [← ha1, ← ha2] at hqe
              exact hE hqe
            · exact ⟨q, hq2, hqe⟩
          rw [ih rest2 hrec (List.Chain'.tail hch) hdup2]

theorem add_line_segment_preserves_sorted (angV : Point → Point → Point → ℚ)
    (sqrtO : ℚ → ℚ) (s s2 : SequenceOfBundles) (vertex e : Point)
    (h : SequenceOfBundles.add_line_segment angV sqrtO s vertex e = .ok s2)
    (hinv : bundles_sorted angV s) : bundles_sorted angV s2 := by
  unfold SequenceOfBundles.add_line_segment at h
  by_cases hmem : vertex ∉ s.skeleton
  · rw [if_pos hmem] at h
    cases h
    exact hinv
  · rw [if_neg hmem] at h
    cases hhead : s.skeleton.head? with
    | none =>
      rw [hhead] at h
      cases s.skeleton.getLast? <;> (cases h; exact hinv)
    | some first =>
    cases hlastk : s.skeleton.getLast? with
    | none => rw [hhead, hlastk] at h; cases h; exact hinv
    | some last =>
    rw [hhead, hlastk] at h
    dsimp only at h
    by_cases hterm : vertex = first ∨ vertex = last
    · rw [if_pos hterm] at h
      cases h
      exact hinv
    · rw [if_neg hterm] at h
      cases hclamp : (if calculate_distance sqrtO vertex e > s.radius then
          (if calculate_distance sqrtO vertex e = 0 then
            .error .zeroDivErr
          else .ok (clamp_endpoint sqrtO s.radius vertex e))
        else .ok e : Except Err Point) with
      | error e2 => rw [hclamp] at h; exact Except.noConfusion h
      | ok ep =>
      rw [hclamp] at h
      dsimp only at h
      cases hidx : list_index s.skeleton vertex with
      | none => rw [hidx] at h; exact Except.noConfusion h
      | some index =>
      rw [hidx] at h
      dsimp only at h
      cases hprevv : s.skeleton[index - 1]? with
      | none =>
        rw [hprevv] at h
        cases h2 : s.skeleton[index + 1]? <;>
          (rw [h2] at h; exact Except.noConfusion h)
      | some prev_vertex =>
      cases hnextv : s.skeleton[index + 1]? with
      | none => rw [hprevv, hnextv] at h; exact Except.noConfusion h
      | some next_vertex =>
      rw [hprevv, hnextv] at h
      dsimp only at h
      cases hA1 : calculate_angle angV prev_vertex vertex next_vertex with
      | error e2 =>
        rw [hA1] at h
        cases h2 : calculate_angle angV prev_vertex vertex ep <;>
          cases h3 : calculate_angle angV ep vertex next_vertex <;>
            (rw [h2, h3] at h; exact Except.noConfusion h)
      | ok a1 =>
      cases hA2 : calculate_angle angV prev_vertex vertex ep with
      | error e2 =>
        rw [hA1, hA2] at h
        cases h3 : calculate_angle angV ep vertex next_vertex <;>
          (rw [h3] at h; exact Except.noConfusion h)
      | ok a2 =>
      cases hA3 : calculate_angle angV ep vertex next_vertex with
      | error e2 => rw [hA1, hA2, hA3] at h; exact Except.noConfusion h
      | ok a3 =>
      rw [hA1, hA2, hA3] at h
      dsimp only at h
      by_cases hsector : ¬ is_equal_angle a1 (a2 + a3) = true
      · rw [if_pos hsector] at h
        cases h
        exact hinv
      · rw [if_neg hsector] at h
        cases hbk : s.outer_endpoints[index]? with
        | none => rw [hbk] at h; exact Except.noConfusion h
        | some bundle =>
        rw [hbk] at h
        dsimp only at h
        cases hins : insert_endpoint angV prev_vertex vertex ep bundle with
        | error e2 => rw [hins] at h; exact Except.noConfusion h
        | ok bundle2 =>
          rw [hins] at h
          simp only [Except.ok.injEq] at h
          subst h
          intro i v prev b hi hpr hb
          dsimp only at hi hpr hb ⊢
          by_cases hieq : i = index
          · subst hieq
            rw [List.getElem?_set_self
              (List.getElem?_eq_some.mp hbk).1] at hb
            have hb2 : b = bundle2 := (Option.some.inj hb).symm
            subst hb2
            have hv : v = vertex := by
              have := list_index_spec vertex s.skeleton i hidx
              rw [hi] at this
              exact Option.some.inj this
            have hpr2 : prev = prev_vertex := by
              rw [hpr] at hprevv
              exact Option.some.inj hprevv
            subst hv
            subst hpr2
            exact (insert_endpoint_sorted angV prev v ep bundle _ hins
              (hinv i v prev bundle hi hpr hbk)).1
          · rw [List.getElem?_set_ne (fun he2 => hieq he2.symm)] at hb
            exact hinv i v prev b hi hpr hb

theorem add_line_segment_ok_cases (angV : Point → Point → Point → ℚ)
    (sqrtO : ℚ → ℚ) (s s2 : SequenceOfBundles) (vertex e : Point)
    (h : SequenceOfBundles.add_line_segment angV sqrtO s vertex e = .ok s2) :
    s2 = s ∨
    (∃ (index : Nat) (prev_vertex : Point) (bundle bundle2 : List Point),
      list_index s.skeleton vertex = some index ∧
      s.skeleton[index - 1]? = some prev_vertex ∧
      s.outer_endpoints[index]? = some bundle ∧
      insert_endpoint angV prev_vertex vertex
        (if calculate_distance sqrtO vertex e > s.radius then
          clamp_endpoint sqrtO s.radius vertex e
        else e) bundle = .ok bundle2 ∧
      s2 = ⟨s.skeleton, s.radius, s.outer_endpoints.set index bundle2⟩) := by
  unfold SequenceOfBundles.add_line_segment at h
  by_cases hmem : vertex ∉ s.skeleton
  · rw [if_pos hmem] at h
    cases h
    exact Or.inl rfl
  · rw [if_neg hmem] at h
    cases hhead : s.skeleton.head? with
    | none =>
      rw [hhead] at h
      cases s.skeleton.getLast? <;> (cases h; exact Or.inl rfl)
    | some first =>
    cases hlastk : s.skeleton.getLast? with
    | none => rw [hhead, hlastk] at h; cases h; exact Or.inl rfl
    | some last =>
    rw [hhead, hlastk] at h
    dsimp only at h
    by_cases hterm : vertex = first ∨ vertex = last
    · rw [if_pos hterm] at h
      cases h
      exact Or.inl rfl
    · rw [if_neg hterm] at h
      by_cases hbig : calculate_distance sqrtO vertex e > s.radius
      · rw [if_pos hbig] at h
        by_cases hz : calculate_distance sqrtO vertex e = 0
        · rw [if_pos hz] at h
          exact Except.noConfusion h
        · rw [if_neg hz] at h
          dsimp only at h
          cases hidx : list_index s.skeleton vertex with
          | none => rw [hidx] at h; exact Except.noConfusion h
          | some index =>
          rw [hidx] at h
          dsimp only at h
          cases hprevv : s.skeleton[index - 1]? with
          | none =>
            rw [hprevv] at h
            cases h2 : s.skeleton[index + 1]? <;>
              (rw [h2] at h; exact Except.noConfusion h)
          | some prev_vertex =>
          cases hnextv : s.skeleton[index + 1]? with
          | none => rw [hprevv, hnextv] at h; exact Except.noConfusion h
          | some next_vertex =>
          rw [hprevv, hnextv] at h
          dsimp only at h
          cases hA1 : calculate_angle angV prev_vertex vertex next_vertex with
          | error e2 =>
            rw [hA1] at h
            cases h2 : calculate_angle angV prev_vertex vertex
                (clamp_endpoint sqrtO s.radius vertex e) <;>
              cases h3 : calculate_angle angV
                  (clamp_endpoint sqrtO s.radius vertex e) vertex
                  next_vertex <;>
                (rw [h2, h3] at h; exact Except.noConfusion h)
          | ok a1 =>
          cases hA2 : calculate_angle angV prev_vertex vertex
              (clamp_endpoint sqrtO s.radius vertex e) with
          | error e2 =>
            rw [hA1, hA2] at h
            cases h3 : calculate_angle angV
                (clamp_endpoint sqrtO s.radius vertex e) vertex
                next_vertex <;>
              (rw [h3] at h; exact Except.noConfusion h)
          | ok a2 =>
          cases hA3 : calculate_angle angV
              (clamp_endpoint sqrtO s.radius vertex e) vertex
              next_vertex with
          | error e2 => rw [hA1, hA2, hA3] at h; exact Except.noConfusion h
          | ok a3 =>
          rw [hA1, hA2, hA3] at h
          dsimp only at h
          by_cases hsector : ¬ is_equal_angle a1 (a2 + a3) = true
          · rw [if_pos hsector] at h
            cases h
            exact Or.inl rfl
          · rw [if_neg hsector] at h
            cases hbk : s.outer_endpoints[index]? with
            | none => rw [hbk] at h; exact Except.noConfusion h
            | some bundle =>
            rw [hbk] at h
            dsimp only at h
            cases hins : insert_endpoint angV prev_vertex vertex
                (clamp_endpoint sqrtO s.radius vertex e) bundle with
            | error e2 => rw [hins] at h; exact Except.noConfusion h
            | ok bundle2 =>
              rw [hins] at h
              simp only [Except.ok.injEq] at h
              exact Or.inr ⟨index, prev_vertex, bundle, bundle2, rfl,
                hprevv, hbk, by rw [if_pos hbig]; exact hins, h.symm⟩
      · rw [if_neg hbig] at h
        dsimp only at h
        cases hidx : list_index s.skeleton vertex with
        | none => rw [hidx] at h; exact Except.noConfusion h
        | some index =>
        rw [hidx] at h
        dsimp only at h
        cases hprevv : s.skeleton[index - 1]? with
        | none =>
          rw [hprevv] at h
          cases h2 : s.skeleton[index + 1]? <;>
            (rw [h2] at h; exact Except.noConfusion h)
        | some prev_vertex =>
        cases hnextv : s.skeleton[index + 1]? with
        | none => rw [hprevv, hnextv] at h; exact Except.noConfusion h
        | some next_vertex =>
        rw [hprevv, hnextv] at h
        dsimp only at h
        cases hA1 : calculate_angle angV prev_vertex vertex next_vertex with
        | error e2 =>
          rw [hA1] at h
          cases h2 : calculate_angle angV prev_vertex vertex e <;>
            cases h3 : calculate_angle angV e vertex next_vertex <;>
              (rw [h2, h3] at h; exact Except.noConfusion h)
        | ok a1 =>
        cases hA2 : calculate_angle angV prev_vertex vertex e with
        | error e2 =>
          rw [hA1, hA2] at h
          cases h3 : calculate_angle angV e vertex next_vertex <;>
            (rw [h3] at h; exact Except.noConfusion h)
        | ok a2 =>
        cases hA3 : calculate_angle angV e vertex next_vertex with
        | error e2 => rw [hA1, hA2, hA3] at h; exact Except.noConfusion h
        | ok a3 =>
        rw [hA1, hA2, hA3] at h
        dsimp only at h
        by_cases hsector : ¬ is_equal_angle a1 (a2 + a3) = true
        · rw [if_pos hsector] at h
          cases h
          exact Or.inl rfl
        · rw [if_neg hsector] at h
          cases hbk : s.outer_endpoints[index]? with
          | none => rw [hbk] at h; exact Except.noConfusion h
          | some bundle =>
          rw [hbk] at h
          dsimp only at h
          cases hins : insert_endpoint angV prev_vertex vertex e bundle with
          | error e2 => rw [hins] at h; exact Except.noConfusion h
          | ok bundle2 =>
            rw [hins] at h
            simp only [Except.ok.injEq] at h
            exact Or.inr ⟨index, prev_vertex, bundle, bundle2, rfl,
              hprevv, hbk, by rw [if_neg hbig]; exact hins, h.symm⟩

theorem run_calls_step (angV : Point → Point → Point → ℚ) (sqrtO : ℚ → ℚ) :
    ∀ (cs : List (Point × Point)) (s : SequenceOfBundles),
      bundles_sorted angV s → bundles_sorted angV (run_calls angV sqrtO s cs) := by
  intro cs
  induction cs with
  | nil => intro s hs; exact hs
  | cons c rest ih =>
    intro s hs
    show bundles_sorted angV (run_calls angV sqrtO _ rest)
    apply ih
    cases hadd : SequenceOfBundles.add_line_segment angV sqrtO s c.1 c.2 with
    | ok s2 =>
      show bundles_sorted angV (match SequenceOfBundles.add_line_segment
        angV sqrtO s c.1 c.2 with | .ok s2 => s2 | .error _ => s)
      rw [hadd]
      exact add_line_segment_preserves_sorted angV sqrtO s s2 c.1 c.2 hadd hs
    | error e =>
      show bundles_sorted angV (match SequenceOfBundles.add_line_segment
        angV sqrtO s c.1 c.2 with | .ok s2 => s2 | .error _ => s)
      rw [hadd]
      exact hs

theorem init_sorted (angV : Point → Point → Point → ℚ)
    (skeleton : List Point) (radius : ℚ) :
    bundles_sorted angV (SequenceOfBundles.init skeleton radius) := by
  intro i v prev b hi hpr hb
  have hb2 : b = [] := by
    unfold SequenceOfBundles.init at hb
    dsimp only at hb
    rw [List.getElem?_map] at hb
    have hi2 : skeleton[i]? = some v := hi
    rw [hi2] at hb
    exact (Option.some.inj hb).symm
  subst hb2
  exact List.chain'_nil

theorem add_line_segment_duplicate_noop (angV : Point → Point → Point → ℚ)
    (sqrtO : ℚ → ℚ) (s s2 : SequenceOfBundles) (v e : Point) (index : Nat)
    (prev : Point) (bucket : List Point) (p : Point)
    (hsorted : bundles_sorted angV s)
    (hidx : list_index s.skeleton v = some index)
    (hprev : s.skeleton[index - 1]? = some prev)
    (hbucket : s.outer_endpoints[index]? = some bucket)
    (hp : p ∈ bucket)
    (heqa : is_equal_angle (angV prev v p)
      (angV prev v (if calculate_distance sqrtO v e > s.radius then
        clamp_endpoint sqrtO s.radius v e else e)) = true)
    (h : SequenceOfBundles.add_line_segment angV sqrtO s v e = .ok s2) :
    s2 = s := by
  rcases add_line_segment_ok_cases angV sqrtO s s2 v e h with rfl |
    ⟨index2, prev2, bundle, bundle2, hidx2, hprev2, hbk2, hins, hs2⟩
  · rfl
  · have hieq : index2 = index := by
      rw [hidx] at hidx2
      exact (Option.some.inj hidx2).symm
    subst hieq
    have hpeq : prev2 = prev := by
      rw [hprev] at hprev2
      exact (Option.some.inj hprev2).symm
    subst hpeq
    have hbeq : bundle = bucket := by
      rw [hbucket] at hbk2
      exact (Option.some.inj hbk2).symm
    subst hbeq
    have hskv : s.skeleton[index2]? = some v := list_index_spec _ _ _ hidx
    have hnoop := insert_endpoint_noop angV prev2 v _ bundle bundle2 hins
      (hsorted index2 v prev2 bundle hskv hprev hbucket)
      ⟨p, hp, heqa⟩
    subst hnoop
    rw [hs2, set_getElem?_id _ _ _ hbucket]

/-- C7: after any sequence of `add_line_segment` calls starting from a fresh
model, each vertex's stored bundle is in strictly ascending angular order
(under the epsilon comparisons) measured from the previous skeleton vertex;
and appending a call whose (post-clamp) endpoint's angle is epsilon-equal to
an already stored endpoint's angle leaves the whole model unchanged.  The
`acos`-based angle value is an oracle parameter: both properties hold for
every angle assignment. -/
theorem bundle_angular_order :
    (∀ (angV : Point → Point → Point → ℚ) (sqrtO : ℚ → ℚ)
       (skeleton : List Point) (radius : ℚ) (calls : List (Point × Point))
       (i : Nat) (v prev : Point) (b : List Point),
      (run_calls angV sqrtO (SequenceOfBundles.init skeleton radius)
        calls).skeleton[i]? = some v →
      (run_calls angV sqrtO (SequenceOfBundles.init skeleton radius)
        calls).skeleton[i - 1]? = some prev →
      (run_calls angV sqrtO (SequenceOfBundles.init skeleton radius)
        calls).outer_endpoints[i]? = some b →
      List.Chain' (angle_asc angV prev v) b) ∧
    (∀ (angV : Point → Point → Point → ℚ) (sqrtO : ℚ → ℚ)
       (skeleton : List Point) (radius : ℚ) (calls : List (Point × Point))
       (v e : Point) (index : Nat) (prev : Point) (bucket : List Point)
       (p : Point),
      list_index (run_calls angV sqrtO
        (SequenceOfBundles.init skeleton radius) calls).skeleton v =
        some index →
      (run_calls angV sqrtO (SequenceOfBundles.init skeleton radius)
        calls).skeleton[index - 1]? = some prev →
      (run_calls angV sqrtO (SequenceOfBundles.init skeleton radius)
        calls).outer_endpoints[index]? = some bucket →
      p ∈ bucket →
      is_equal_angle (angV prev v p) (angV prev v
        (if calculate_distance sqrtO v e >
            (run_calls angV sqrtO (SequenceOfBundles.init skeleton radius)
              calls).radius then
          clamp_endpoint sqrtO (run_calls angV sqrtO
            (SequenceOfBundles.init skeleton radius) calls).radius v e
        else e)) = true →
      run_calls angV sqrtO (SequenceOfBundles.init skeleton radius)
        (calls ++ [(v, e)]) =
        run_calls angV sqrtO (SequenceOfBundles.init skeleton radius)
          calls) := by
  constructor
  · intro angV sqrtO skeleton radius calls i v prev b hi hpr hb
    exact run_calls_step angV sqrtO calls _
      (init_sorted angV skeleton radius) i v prev b hi hpr hb
  · intro angV sqrtO skeleton radius calls v e index prev bucket p
      hidx hprev hbucket hp heqa
    unfold run_calls
    rw [List.foldl_append]
    show (match SequenceOfBundles.add_line_segment angV sqrtO
      (run_calls angV sqrtO (SequenceOfBundles.init skeleton radius) calls)
      v e with
      | .ok s2 => s2 | .error _ => run_calls angV sqrtO
        (SequenceOfBundles.init skeleton radius) calls) = _
    cases hadd : SequenceOfBundles.add_line_segment angV sqrtO
        (run_calls angV sqrtO (SequenceOfBundles.init skeleton radius)
          calls) v e with
    | ok s2 =>
      exact add_line_segment_duplicate_noop angV sqrtO _ s2 v e index prev
        bucket p (run_calls_step angV sqrtO calls _
          (init_sorted angV skeleton radius))
        hidx hprev hbucket hp heqa hadd
    | error e2 => rfl

/-- Witness for C7 at a concrete angle oracle and model: two inserts land in
ascending order and an angular-duplicate third insert leaves the model
unchanged. -/
theorem bundle_angular_order_witness :
    List.Chain' (angle_asc (fun a _ c =>
      (if c = ⟨1, 1⟩ then 10 else if c = ⟨-1, 1⟩ then 20
        else if c = ⟨-2, 2⟩ then 20 else if c = ⟨2, 0⟩ then (30 : ℚ) else 0) -
      (if a = ⟨1, 1⟩ then 10 else if a = ⟨-1, 1⟩ then 20
        else if a = ⟨-2, 2⟩ then 20 else if a = ⟨2, 0⟩ then (30 : ℚ) else 0))
      ⟨0, 0⟩ ⟨1, 0⟩) [⟨1, 1⟩, ⟨-1, 1⟩] ∧
    run_calls (fun a _ c =>
      (if c = ⟨1, 1⟩ then 10 else if c = ⟨-1, 1⟩ then 20
        else if c = ⟨-2, 2⟩ then 20 else if c = ⟨2, 0⟩ then (30 : ℚ) else 0) -
      (if a = ⟨1, 1⟩ then 10 else if a = ⟨-1, 1⟩ then 20
        else if a = ⟨-2, 2⟩ then 20 else if a = ⟨2, 0⟩ then (30 : ℚ) else 0))
      (fun _ => 0) (SequenceOfBundles.init [⟨0, 0⟩, ⟨1, 0⟩, ⟨2, 0⟩] 100)
      ([(⟨1, 0⟩, ⟨1, 1⟩), (⟨1, 0⟩, ⟨-1, 1⟩)] ++ [(⟨1, 0⟩, ⟨-2, 2⟩)]) =
    run_calls (fun a _ c =>
      (if c = ⟨1, 1⟩ then 10 else if c = ⟨-1, 1⟩ then 20
        else if c = ⟨-2, 2⟩ then 20 else if c = ⟨2, 0⟩ then (30 : ℚ) else 0) -
      (if a = ⟨1, 1⟩ then 10 else if a = ⟨-1, 1⟩ then 20
        else if a = ⟨-2, 2⟩ then 20 else if a = ⟨2, 0⟩ then (30 : ℚ) else 0))
      (fun _ => 0) (SequenceOfBundles.init [⟨0, 0⟩, ⟨1, 0⟩, ⟨2, 0⟩] 100)
      [(⟨1, 0⟩, ⟨1, 1⟩), (⟨1, 0⟩, ⟨-1, 1⟩)] :=
  ⟨bundle_angular_order.1 _ (fun _ => 0) [⟨0, 0⟩, ⟨1, 0⟩, ⟨2, 0⟩] 100
      [(⟨1, 0⟩, ⟨1, 1⟩), (⟨1, 0⟩, ⟨-1, 1⟩)] 1 ⟨1, 0⟩ ⟨0, 0⟩
      [⟨1, 1⟩, ⟨-1, 1⟩] (by with_unfolding_all decide)
      (by with_unfolding_all decide) (by with_unfolding_all decide),
    bundle_angular_order.2 _ (fun _ => 0) [⟨0, 0⟩, ⟨1, 0⟩, ⟨2, 0⟩] 100
      [(⟨1, 0⟩, ⟨1, 1⟩), (⟨1, 0⟩, ⟨-1, 1⟩)] ⟨1, 0⟩ ⟨-2, 2⟩ 1 ⟨0, 0⟩
      [⟨1, 1⟩, ⟨-1, 1⟩] ⟨-1, 1⟩ (by with_unfolding_all decide)
      (by with_unfolding_all decide) (by with_unfolding_all decide)
      (by with_unfolding_all decide) (by with_unfolding_all decide)⟩

theorem list_index_of_mem (v : Point) :
    ∀ (xs : List Point), v ∈ xs → ∃ i, list_index xs v = some i := by
  intro xs
  induction xs with
  | nil => intro h; exact absurd h (List.not_mem_nil v)
  | cons q rest ih =>
    intro h
    unfold list_index
    by_cases hq : q = v
    · exact ⟨0, by rw [if_pos hq]⟩
    · have hv : v ∈ rest := by
        rcases List.mem_cons.mp h with rfl | h2
        · exact absurd rfl hq
        · exact h2
      obtain ⟨i, hi⟩ := ih hv
      exact ⟨i + 1, by rw [if_neg hq, hi]⟩

theorem mem_of_list_index (xs : List Point) (v : Point) (i : Nat)
    (h : list_index xs v = some i) : v ∈ xs := by
  have := list_index_spec v xs i h
  exact List.getElem?_mem this

theorem insert_endpoint_total (angV : Point → Point → Point → ℚ)
    (prev v ep : Point) (hprev : prev ≠ v) (hep : ep ≠ v) :
    ∀ (b : List Point), (∀ q ∈ b, q ≠ v) →
      ∃ b2, insert_endpoint angV prev v ep b = .ok b2 := by
  intro b
  induction b with
  | nil => intro _; exact ⟨[ep], rfl⟩
  | cons p rest ih =>
    intro hall
    have hp : p ≠ v := hall p (List.mem_cons_self _ _)
    have hca1 : calculate_angle angV prev v p = .ok (angV prev v p) := by
      unfold calculate_angle
      rw [if_neg (by push_neg; exact ⟨hprev, hp⟩)]
    have hca2 : calculate_angle angV prev v ep = .ok (angV prev v ep) := by
      unfold calculate_angle
      rw [if_neg (by push_neg; exact ⟨hprev, hep⟩)]
    unfold insert_endpoint
    rw [hca1, hca2]
    dsimp only
    by_cases hL : is_larger_angle (angV prev v p) (angV prev v ep) = true
    · rw [if_pos hL]
      exact ⟨ep :: p :: rest, rfl⟩
    · rw [if_neg hL]
      by_cases hE : is_equal_angle (angV prev v p) (angV prev v ep) = true
      · rw [if_pos hE]
        exact ⟨p :: rest, rfl⟩
      · rw [if_neg hE]
        obtain ⟨rest2, hrest2⟩ := ih
          (fun q hq => hall q (List.mem_cons_of_mem _ hq))
        rw [hrest2]
        exact ⟨p :: rest2, rfl⟩

/-- C8: under each of the four validation conditions — vertex not in the
skeleton, vertex terminal, sector violation, angular duplicate — the call
returns normally (no exception) and the whole bundle model is unchanged.
The sector/duplicate cases carry the side conditions that make the angle
computations of that code path well defined (no zero-length rays) and the
clamp well defined (no division by zero). -/
theorem add_line_segment_validation_recoverable
    (angV : Point → Point → Point → ℚ) (sqrtO : ℚ → ℚ)
    (s : SequenceOfBundles) (v e : Point)
    (h :
      v ∉ s.skeleton ∨
      (∃ first last, s.skeleton.head? = some first ∧
        s.skeleton.getLast? = some last ∧ (v = first ∨ v = last)) ∨
      (∃ (index : Nat) (prev next : Point),
        list_index s.skeleton v = some index ∧
        s.skeleton[index - 1]? = some prev ∧
        s.skeleton[index + 1]? = some next ∧
        prev ≠ v ∧ next ≠ v ∧ effective_endpoint sqrtO s.radius v e ≠ v ∧
        ¬ (calculate_distance sqrtO v e > s.radius ∧
           calculate_distance sqrtO v e = 0) ∧
        ¬ is_equal_angle (angV prev v next)
          (angV prev v (effective_endpoint sqrtO s.radius v e) +
           angV (effective_endpoint sqrtO s.radius v e) v next) = true) ∨
      (∃ (index : Nat) (prev next : Point) (bucket : List Point) (p : Point),
        list_index s.skeleton v = some index ∧
        s.skeleton[index - 1]? = some prev ∧
        s.skeleton[index + 1]? = some next ∧
        s.outer_endpoints[index]? = some bucket ∧
        List.Chain' (angle_asc angV prev v) bucket ∧
        p ∈ bucket ∧
        is_equal_angle (angV prev v p)
          (angV prev v (effective_endpoint sqrtO s.radius v e)) = true ∧
        prev ≠ v ∧ next ≠ v ∧ effective_endpoint sqrtO s.radius v e ≠ v ∧
        (∀ q ∈ bucket, q ≠ v) ∧
        ¬ (calculate_distance sqrtO v e > s.radius ∧
           calculate_distance sqrtO v e = 0))) :
    SequenceOfBundles.add_line_segment angV sqrtO s v e = .ok s := by
  unfold SequenceOfBundles.add_line_segment
  by_cases hmem : v ∉ s.skeleton
  · rw [if_pos hmem]
  · rw [if_neg hmem]
    have hvmem : v ∈ s.skeleton := not_not.mp hmem
    obtain ⟨first, hfirst⟩ := head?_of_ne_nil (List.ne_nil_of_mem hvmem)
    obtain ⟨last, hlast⟩ := getLast?_of_ne_nil (List.ne_nil_of_mem hvmem)
    rw [hfirst, hlast]
    dsimp only
    by_cases hterm : v = first ∨ v = last
    · rw [if_pos hterm]
    · rw [if_neg hterm]
      rcases h with h1 | h2 | h3 | h4
      · exact absurd h1 hmem
      · obtain ⟨f2, l2, hf2, hl2, hv2⟩ := h2
        rw [hfirst] at hf2
        rw [hlast] at hl2
        cases Option.some.inj hf2
        cases Option.some.inj hl2
        exact absurd hv2 hterm
      · obtain ⟨index, prev, next, hidx, hprev, hnext, hpv, hnv, hepv,
          hclampok, hsector⟩ := h3
        have hz : ¬ (calculate_distance sqrtO v e > s.radius ∧
            calculate_distance sqrtO v e = 0) := hclampok
        by_cases hbig : calculate_distance sqrtO v e > s.radius
        · rw [if_pos hbig, if_neg (fun h0 => hz ⟨hbig, h0⟩)]
          dsimp only
          rw [hidx]
          dsimp only
          rw [hprev, hnext]
          dsimp only
          have hepc : effective_endpoint sqrtO s.radius v e =
              clamp_endpoint sqrtO s.radius v e := by
            unfold effective_endpoint
            rw [if_pos hbig]
          rw [hepc] at hepv hsector
          rw [show calculate_angle angV prev v next =
              .ok (angV prev v next) from by
            unfold calculate_angle
            rw [if_neg (by push_neg; exact ⟨hpv, hnv⟩)]]
          rw [show calculate_angle angV prev v
              (clamp_endpoint sqrtO s.radius v e) =
              .ok (angV prev v (clamp_endpoint sqrtO s.radius v e)) from by
            unfold calculate_angle
            rw [if_neg (by push_neg; exact ⟨hpv, hepv⟩)]]
          rw [show calculate_angle angV
              (clamp_endpoint sqrtO s.radius v e) v next =
              .ok (angV (clamp_endpoint sqrtO s.radius v e) v next) from by
            unfold calculate_angle
            rw [if_neg (by push_neg; exact ⟨hepv, hnv⟩)]]
          dsimp only
          rw [if_pos hsector]
        · rw [if_neg hbig]
          dsimp only
          rw [hidx]
          dsimp only
          rw [hprev, hnext]
          dsimp only
          have hepc : effective_endpoint sqrtO s.radius v e = e := by
            unfold effective_endpoint
            rw [if_neg hbig]
          rw [hepc] at hepv hsector
          rw [show calculate_angle angV prev v next =
              .ok (angV prev v next) from by
            unfold calculate_angle
            rw [if_neg (by push_neg; exact ⟨hpv, hnv⟩)]]
          rw [show calculate_angle angV prev v e =
              .ok (angV prev v e) from by
            unfold calculate_angle
            rw [if_neg (by push_neg; exact ⟨hpv, hepv⟩)]]
          rw [show calculate_angle angV e v next =
              .ok (angV e v next) from by
            unfold calculate_angle
            rw [if_neg (by push_neg; exact ⟨hepv, hnv⟩)]]
          dsimp only
          rw [if_pos hsector]
      · obtain ⟨index, prev, next, bucket, p, hidx, hprev, hnext, hbucket,
          hsorted, hp, heqa, hpv, hnv, hepv, hall, hclampok⟩ := h4
        obtain ⟨b2, hins⟩ := insert_endpoint_total angV prev v
          (effective_endpoint sqrtO s.radius v e) hpv hepv bucket hall
        have hb2 := insert_endpoint_noop angV prev v
          (effective_endpoint sqrtO s.radius v e) bucket b2 hins hsorted
          ⟨p, hp, heqa⟩
        subst hb2
        by_cases hbig : calculate_distance sqrtO v e > s.radius
        · rw [if_pos hbig, if_neg (fun h0 => hclampok ⟨hbig, h0⟩)]
          dsimp only
          rw [hidx]
          dsimp only
          rw [hprev, hnext]
          dsimp only
          have hepc : effective_endpoint sqrtO s.radius v e =
              clamp_endpoint sqrtO s.radius v e := by
            unfold effective_endpoint
            rw [if_pos hbig]
          rw [hepc] at hepv hins
          rw [show calculate_angle angV prev v next =
              .ok (angV prev v next) from by
            unfold calculate_angle
            rw [if_neg (by push_neg; exact ⟨hpv, hnv⟩)]]
          rw [show calculate_angle angV prev v
              (clamp_endpoint sqrtO s.radius v e) =
              .ok (angV prev v (clamp_endpoint sqrtO s.radius v e)) from by
            unfold calculate_angle
            rw [if_neg (by push_neg; exact ⟨hpv, hepv⟩)]]
          rw [show calculate_angle angV
              (clamp_endpoint sqrtO s.radius v e) v next =
              .ok (angV (clamp_endpoint sqrtO s.radius v e) v next) from by
            unfold calculate_angle
            rw [if_neg (by push_neg; exact ⟨hepv, hnv⟩)]]
          dsimp only
          by_cases hsector : ¬ is_equal_angle (angV prev v next)
              (angV prev v (clamp_endpoint sqrtO s.radius v e) +
               angV (clamp_endpoint sqrtO s.radius v e) v next) = true
          · rw [if_pos hsector]
          · rw [if_neg hsector, hbucket]
            dsimp only
            rw [hins]
            dsimp only
            rw [set_getElem?_id _ _ _ hbucket]
        · rw [if_neg hbig]
          dsimp only
          rw [hidx]
          dsimp only
          rw [hprev, hnext]
          dsimp only
          have hepc : effective_endpoint sqrtO s.radius v e = e := by
            unfold effective_endpoint
            rw [if_neg hbig]
          rw [hepc] at hepv hins
          rw [show calculate_angle angV prev v next =
              .ok (angV prev v next) from by
            unfold calculate_angle
            rw [if_neg (by push_neg; exact ⟨hpv, hnv⟩)]]
          rw [show calculate_angle angV prev v e =
              .ok (angV prev v e) from by
            unfold calculate_angle
            rw [if_neg (by push_neg; exact ⟨hpv, hepv⟩)]]
          rw [show calculate_angle angV e v next =
              .ok (angV e v next) from by
            unfold calculate_angle
            rw [if_neg (by push_neg; exact ⟨hepv, hnv⟩)]]
          dsimp only
          by_cases hsector : ¬ is_equal_angle (angV prev v next)
              (angV prev v e + angV e v next) = true
          · rw [if_pos hsector]
          · rw [if_neg hsector, hbucket]
            dsimp only
            rw [hins]
            dsimp only
            rw [set_getElem?_id _ _ _ hbucket]

/-- Witness for C8: one concrete instance of each validation condition —
unknown vertex, terminal vertex, sector violation, angular duplicate — each
returning the model unchanged with no error. -/
theorem add_line_segment_validation_recoverable_witness :
    SequenceOfBundles.add_line_segment (fun a _ c =>
        if a = ⟨0, 0⟩ ∧ c = ⟨2, 0⟩ then 30
        else if a = ⟨0, 0⟩ ∧ c = ⟨1, 1⟩ then 10
        else if a = ⟨0, 0⟩ ∧ c = ⟨3, 3⟩ then 10
        else if a = ⟨0, 0⟩ ∧ c = ⟨4, 4⟩ then 50
        else if a = ⟨4, 4⟩ ∧ c = ⟨2, 0⟩ then (50 : ℚ) else 0)
      (fun _ => 0) (SequenceOfBundles.init [⟨0, 0⟩, ⟨1, 0⟩, ⟨2, 0⟩] 100)
      ⟨5, 5⟩ ⟨0, 1⟩ =
      .ok (SequenceOfBundles.init [⟨0, 0⟩, ⟨1, 0⟩, ⟨2, 0⟩] 100) ∧
    SequenceOfBundles.add_line_segment (fun a _ c =>
        if a = ⟨0, 0⟩ ∧ c = ⟨2, 0⟩ then 30
        else if a = ⟨0, 0⟩ ∧ c = ⟨1, 1⟩ then 10
        else if a = ⟨0, 0⟩ ∧ c = ⟨3, 3⟩ then 10
        else if a = ⟨0, 0⟩ ∧ c = ⟨4, 4⟩ then 50
        else if a = ⟨4, 4⟩ ∧ c = ⟨2, 0⟩ then (50 : ℚ) else 0)
      (fun _ => 0) (SequenceOfBundles.init [⟨0, 0⟩, ⟨1, 0⟩, ⟨2, 0⟩] 100)
      ⟨0, 0⟩ ⟨0, 1⟩ =
      .ok (SequenceOfBundles.init [⟨0, 0⟩, ⟨1, 0⟩, ⟨2, 0⟩] 100) ∧
    SequenceOfBundles.add_line_segment (fun a _ c =>
        if a = ⟨0, 0⟩ ∧ c = ⟨2, 0⟩ then 30
        else if a = ⟨0, 0⟩ ∧ c = ⟨1, 1⟩ then 10
        else if a = ⟨0, 0⟩ ∧ c = ⟨3, 3⟩ then 10
        else if a = ⟨0, 0⟩ ∧ c = ⟨4, 4⟩ then 50
        else if a = ⟨4, 4⟩ ∧ c = ⟨2, 0⟩ then (50 : ℚ) else 0)
      (fun _ => 0) ⟨[⟨0, 0⟩, ⟨1, 0⟩, ⟨2, 0⟩], 100, [[], [⟨1, 1⟩], []]⟩
      ⟨1, 0⟩ ⟨4, 4⟩ =
      .ok ⟨[⟨0, 0⟩, ⟨1, 0⟩, ⟨2, 0⟩], 100, [[], [⟨1, 1⟩], []]⟩ ∧
    SequenceOfBundles.add_line_segment (fun a _ c =>
        if a = ⟨0, 0⟩ ∧ c = ⟨2, 0⟩ then 30
        else if a = ⟨0, 0⟩ ∧ c = ⟨1, 1⟩ then 10
        else if a = ⟨0, 0⟩ ∧ c = ⟨3, 3⟩ then 10
        else if a = ⟨0, 0⟩ ∧ c = ⟨4, 4⟩ then 50
        else if a = ⟨4, 4⟩ ∧ c = ⟨2, 0⟩ then (50 : ℚ) else 0)
      (fun _ => 0) ⟨[⟨0, 0⟩, ⟨1, 0⟩, ⟨2, 0⟩], 100, [[], [⟨1, 1⟩], []]⟩
      ⟨1, 0⟩ ⟨3, 3⟩ =
      .ok ⟨[⟨0, 0⟩, ⟨1, 0⟩, ⟨2, 0⟩], 100, [[], [⟨1, 1⟩], []]⟩ :=
  ⟨add_line_segment_validation_recoverable _ _ _ _ _
      (Or.inl (by with_unfolding_all decide)),
    add_line_segment_validation_recoverable _ _ _ _ _
      (Or.inr (Or.inl ⟨⟨0, 0⟩, ⟨2, 0⟩, rfl, rfl, Or.inl rfl⟩)),
    add_line_segment_validation_recoverable _ _ _ _ _
      (Or.inr (Or.inr (Or.inl ⟨1, ⟨0, 0⟩, ⟨2, 0⟩,
        by with_unfolding_all decide, by with_unfolding_all decide,
        by with_unfolding_all decide, by with_unfolding_all decide,
        by with_unfolding_all decide, by with_unfolding_all decide,
        by with_unfolding_all decide⟩))),
    add_line_segment_validation_recoverable _ _ _ _ _
      (Or.inr (Or.inr (Or.inr ⟨1, ⟨0, 0⟩, ⟨2, 0⟩, [⟨1, 1⟩], ⟨1, 1⟩,
        by with_unfolding_all decide, by with_unfolding_all decide,
        by with_unfolding_all decide, by with_unfolding_all decide,
        List.chain'_singleton _, by with_unfolding_all decide,
        by with_unfolding_all decide, by with_unfolding_all decide,
        by with_unfolding_all decide, by with_unfolding_all decide,
        by with_unfolding_all decide, by with_unfolding_all decide⟩)))⟩
